import Mathlib

/-!
Verification of the gossip store of `libopenstorage/gossip` as vendored in this
repository (`vendor/github.com/libopenstorage/gossip/proto/gossip_store.go`).

The Go code is shallowly embedded: Go maps become association lists with a
replace-in-place / append-at-end update (`setA`), a delete (`eraseA`) and a
lookup (`lookupA`); `time.Now()` becomes an explicit `now : Nat` argument;
a Go nil map becomes `none : Option _`; a write into a nil map (a Go runtime
panic) makes the operation return `none`; a returned `error` becomes a `Bool`
flag alongside the state.  Iteration over a Go map becomes iteration over the
association list; every theorem that depends on map extensionality carries a
no-duplicate-keys hypothesis, which Go maps satisfy by construction.
-/

namespace GossipStore

/-- Opaque node identifier (Go `types.NodeId`, a string). -/
abbrev NodeId := String

/-- Opaque store key (Go `types.StoreKey`, a string). -/
abbrev StoreKey := String

/-- Payload values are opaque to the store (Go `interface{}`); we fix a
representative concrete type. -/
abbrev Val := Nat

/-- Wall-clock timestamps (Go `time.Time`), ordered. -/
abbrev Time := Nat

/-- Association-list lookup: first binding of the key, as a Go map read. -/
def lookupA {κ ν : Type} [DecidableEq κ] (k : κ) : List (κ × ν) → Option ν
  | [] => none
  | p :: ps => if p.1 = k then some p.2 else lookupA k ps

/-- Association-list write, as a Go map assignment: replace the first binding
of the key in place, or append a fresh binding at the end. -/
def setA {κ ν : Type} [DecidableEq κ] (k : κ) (v : ν) : List (κ × ν) → List (κ × ν)
  | [] => [(k, v)]
  | p :: ps => if p.1 = k then (k, v) :: ps else p :: setA k v ps

/-- Association-list delete, as a Go `delete`: drop every binding of the key. -/
def eraseA {κ ν : Type} [DecidableEq κ] (k : κ) (l : List (κ × ν)) : List (κ × ν) :=
  l.filter (fun p => ¬ p.1 = k)

/-- Membership of a key, as the Go two-valued map read `_, ok := m[k]`. -/
def memA {κ ν : Type} [DecidableEq κ] (k : κ) (l : List (κ × ν)) : Bool :=
  (lookupA k l).isSome

/-- Key list of an association list. -/
def keysA {κ ν : Type} (l : List (κ × ν)) : List κ := l.map Prod.fst

/-- Go `types.NodeStatus`: the status values named by the code and spec. -/
inductive NodeStatus where
  | NODE_STATUS_INVALID
  | NODE_STATUS_NEVER_GOSSIPED
  | NODE_STATUS_NOT_IN_QUORUM
  | NODE_STATUS_UP
  | NODE_STATUS_DOWN
  | NODE_STATUS_SUSPECT
  | NODE_STATUS_LEFT
deriving DecidableEq, Repr

/-- Go `types.NodeInfo`.  `Value` is `Option`al because a Go map field may be
nil; the defaults give the Go zero value of the struct. -/
structure NodeInfo where
  Id : NodeId := ""
  GenNumber : Nat := 0
  LastUpdateTs : Time := 0
  WaitForGenUpdateTs : Time := 0
  Status : NodeStatus := .NODE_STATUS_INVALID
  Value : Option (List (StoreKey × Val)) := none
  QuorumMember : Bool := false
  ClusterDomain : String := ""
  Addr : String := ""
deriving DecidableEq, Repr

/-- Go zero value of `types.NodeInfo`, as produced by a failed map lookup. -/
def zeroNodeInfo : NodeInfo := {}

/-- Go `types.NodeUpdate`: the per-peer record handed to `updateCluster`. -/
structure NodeUpdate where
  QuorumMember : Bool := false
  ClusterDomain : String := ""
  Addr : String := ""
deriving DecidableEq, Repr

/-- Go zero value of `types.NodeUpdate`. -/
def zeroNodeUpdate : NodeUpdate := {}

/-- Go `types.NodeValue`: one entry of the map returned by `GetStoreKeyValue`.
`Value` is `none` when the node's value map lacks the requested key (the Go
zero `interface{}`). -/
structure NodeValue where
  Id : NodeId
  GenNumber : Nat
  LastUpdateTs : Time
  Status : NodeStatus
  Value : Option Val
deriving DecidableEq, Repr

/-- Go `map[types.NodeId]types.NodeInfo`. -/
abbrev NodeInfoMap := List (NodeId × NodeInfo)

/-- Go `nodeIdMap = map[types.NodeId]string` (values are always `""`). -/
abbrev NodeIdMap := List (NodeId × String)

/-- Go `GossipStoreImpl` (mutex fields dropped; all access is serialized). -/
structure Store where
  id : NodeId := ""
  GenNumber : Nat := 0
  nodeMap : NodeInfoMap := []
  selfCorrect : Bool := false
  GossipVersion : String := ""
  ClusterId : String := ""
  clusterSize : Nat := 0
  failureDomainsMap : List (String × NodeIdMap) := []
  lostQuorumTs : Time := 0
deriving DecidableEq, Repr

/-- Go `statusValid`: every status other than INVALID and NEVER_GOSSIPED. -/
def statusValid : NodeStatus → Bool
  | .NODE_STATUS_INVALID => false
  | .NODE_STATUS_NEVER_GOSSIPED => false
  | _ => true

/-- Go `InitStore`: reset the node map to hold only the self entry, with a
fresh non-nil value map, the given status and cluster domain, stamped `now`. -/
def InitStore (s : Store) (id : NodeId) (version : String) (status : NodeStatus)
    (clusterId selfClusterDomain : String) (now : Time) : Store :=
  { s with
    nodeMap := [(id, { Id := id, GenNumber := s.GenNumber, Value := some [],
                       LastUpdateTs := now, Status := status,
                       ClusterDomain := selfClusterDomain })]
    id := id
    selfCorrect := true
    GossipVersion := version
    ClusterId := clusterId }

/-- Go `NewGossipStore`: `InitStore` with status NOT_IN_QUORUM, then
`selfCorrect = false`. -/
def NewGossipStore (id : NodeId) (version clusterId selfClusterDomain : String)
    (now : Time) : Store :=
  { InitStore {} id version .NODE_STATUS_NOT_IN_QUORUM clusterId selfClusterDomain now
    with selfCorrect := false }

/-- Go `UpdateSelf`: unchecked self lookup, write into the value map, stamp
`now`.  Returns `none` when the value map of the looked-up entry is nil (a Go
assignment into a nil map panics), which happens exactly when the self entry
is absent or carries a nil `Value`. -/
def UpdateSelf (s : Store) (key : StoreKey) (val : Val) (now : Time) : Option Store :=
  let nodeInfo := (lookupA s.id s.nodeMap).getD zeroNodeInfo
  match nodeInfo.Value with
  | none => none
  | some m =>
    let ni := { nodeInfo with Value := some (setA key val m), LastUpdateTs := now }
    some { s with nodeMap := setA s.id ni s.nodeMap }

/-- Go `updateSelfClusterDomain` (the private method in the store file):
change the self entry's cluster domain and stamp `now` only when the domain
differs; report whether a change happened. -/
def updateSelfClusterDomain (s : Store) (selfClusterDomain : String) (now : Time) :
    Store × Bool :=
  let nodeInfo := (lookupA s.id s.nodeMap).getD zeroNodeInfo
  if nodeInfo.ClusterDomain = selfClusterDomain then (s, false)
  else
    let ni := { nodeInfo with ClusterDomain := selfClusterDomain, LastUpdateTs := now }
    ({ s with nodeMap := setA s.id ni s.nodeMap }, true)

/-- Go `UpdateNodeStatus`: error (second component `true`) when the id is not
in the node map, leaving the store untouched; otherwise set the status and
stamp `now`. -/
def UpdateNodeStatus (s : Store) (nodeId : NodeId) (status : NodeStatus) (now : Time) :
    Store × Bool :=
  match lookupA nodeId s.nodeMap with
  | none => (s, true)
  | some nodeInfo =>
    let ni := { nodeInfo with Status := status, LastUpdateTs := now }
    ({ s with nodeMap := setA nodeId ni s.nodeMap }, false)

/-- The per-node body of the loop of Go `GetStoreKeyValue`: the `NodeValue`
surfaced for this node, or `none` when the node is skipped (nil value map,
invalid status, or a non-empty value map lacking the key). -/
def getKVEntry (key : StoreKey) (ni : NodeInfo) : Option NodeValue :=
  match ni.Value with
  | none => none
  | some m =>
    if statusValid ni.Status then
      if m.length = 0 ∨ (lookupA key m).isSome then
        some { Id := ni.Id, GenNumber := ni.GenNumber,
               LastUpdateTs := ni.LastUpdateTs, Status := ni.Status,
               Value := lookupA key m }
      else none
    else none

/-- One loop iteration of Go `GetStoreKeyValue`: record the surfaced entry,
if any, under the node's id. -/
def getKVStep (key : StoreKey) (acc : List (NodeId × NodeValue))
    (p : NodeId × NodeInfo) : List (NodeId × NodeValue) :=
  match getKVEntry key p.2 with
  | some n => setA p.1 n acc
  | none => acc

/-- Go `GetStoreKeyValue`: collect, for every node with a valid status and a
non-nil value map that is empty or holds the key, a `NodeValue` built from
that node's fields and its value for the key. -/
def GetStoreKeyValue (s : Store) (key : StoreKey) : List (NodeId × NodeValue) :=
  s.nodeMap.foldl (getKVStep key) []

/-- Go `addNodeUnlocked`: refresh status, quorum membership and cluster domain
of an existing entry (stamping `now`), or insert a fresh entry with a non-nil
empty value map. -/
def addNodeUnlocked (s : Store) (id : NodeId) (status : NodeStatus)
    (quorumMember : Bool) (failureDomain : String) (now : Time) : Store :=
  match lookupA id s.nodeMap with
  | some nodeInfo =>
    let ni := { nodeInfo with
                Status := status
                LastUpdateTs := now
                QuorumMember := quorumMember
                ClusterDomain := failureDomain }
    { s with nodeMap := setA id ni s.nodeMap }
  | none =>
    let ni : NodeInfo :=
      { Id := id
        GenNumber := 0
        LastUpdateTs := now
        WaitForGenUpdateTs := now
        Status := status
        Value := some []
        QuorumMember := quorumMember
        ClusterDomain := failureDomain }
    { s with nodeMap := setA id ni s.nodeMap }

/-- Go `AddNode`: the locked wrapper of `addNodeUnlocked`. -/
def AddNode (s : Store) (id : NodeId) (status : NodeStatus) (quorumMember : Bool)
    (failureDomain : String) (now : Time) : Store :=
  addNodeUnlocked s id status quorumMember failureDomain now

/-- Go `removeNodeUnlocked`: error (second component `true`) when the id is
not in the node map, otherwise delete the entry.  There is no self guard. -/
def removeNodeUnlocked (s : Store) (id : NodeId) : Store × Bool :=
  match lookupA id s.nodeMap with
  | none => (s, true)
  | some _ => ({ s with nodeMap := eraseA id s.nodeMap }, false)

/-- Go `RemoveNode`: the locked wrapper of `removeNodeUnlocked`. -/
def RemoveNode (s : Store) (id : NodeId) : Store × Bool :=
  removeNodeUnlocked s id

/-- Go `GetLocalNodeInfo`: the entry for the id, or an error (`none`). -/
def GetLocalNodeInfo (s : Store) (id : NodeId) : Option NodeInfo :=
  lookupA id s.nodeMap

/-- Go `getLocalState` / `GetLocalState`: a copy of the node map. -/
def GetLocalState (s : Store) : NodeInfoMap := s.nodeMap

/-- One iteration of the loop body of Go `Update`, for the pair `p = (id,
newNodeInfo)`: skip self and unknown ids; otherwise adopt the remote record,
with the local status restored into it, exactly when the local status is not
valid or the local timestamp is strictly older. -/
def updateOne (selfId : NodeId) (m : NodeInfoMap) (p : NodeId × NodeInfo) : NodeInfoMap :=
  if p.1 = selfId then m
  else
    match lookupA p.1 m with
    | none => m
    | some selfValue =>
      if ¬ statusValid selfValue.Status ∨ selfValue.LastUpdateTs < p.2.LastUpdateTs then
        setA p.1 { p.2 with Status := selfValue.Status } m
      else m

/-- Go `Update`: fold the merge rule over the remote diff. -/
def Update (s : Store) (diff : NodeInfoMap) : Store :=
  { s with nodeMap := diff.foldl (updateOne s.id) s.nodeMap }

/-- The first loop of Go `updateClusterDomainsMap`: delete the node id from
every bucket of a different domain that holds it (keys are untouched; a bucket
that does not hold the id keeps its value). -/
def fdmScrub (failureDomain : String) (nodeId : NodeId)
    (fdm : List (String × NodeIdMap)) : List (String × NodeIdMap) :=
  fdm.map (fun p =>
    (p.1, if p.1 ≠ failureDomain ∧ memA nodeId p.2 then eraseA nodeId p.2 else p.2))

/-- Go `updateClusterDomainsMap`, as a function of the failure-domain map:
first delete the node id from every other domain's bucket that holds it, then
insert it into the bucket of the given domain, creating the bucket if absent. -/
def updateClusterDomainsMap (fdm : List (String × NodeIdMap))
    (failureDomain : String) (nodeId : NodeId) : List (String × NodeIdMap) :=
  let fdm1 := fdmScrub failureDomain nodeId fdm
  match lookupA failureDomain fdm1 with
  | some lst =>
    if memA nodeId lst then fdm1
    else setA failureDomain (setA nodeId "" lst) fdm1
  | none => setA failureDomain [(nodeId, "")] fdm1

/-- The body of the final loop of Go `updateCluster`, processing one snapshot
entry: when the id is in `peers`, refresh quorum membership, cluster domain
and address (without stamping a timestamp) and re-index the failure-domain
map; then account the (possibly refreshed) entry into the per-domain
quorum-member counts, using the zero `NodeUpdate` when the id is absent from
`peers`, as the Go zero-valued lookup does. -/
def updateClusterStep (peers : List (NodeId × NodeUpdate))
    (acc : Store × List (String × Nat)) (entry : NodeId × NodeInfo) :
    Store × List (String × Nat) :=
  match lookupA entry.1 peers with
  | some u =>
    let ni := { entry.2 with
                QuorumMember := u.QuorumMember
                ClusterDomain := u.ClusterDomain
                Addr := u.Addr }
    let fdm := updateClusterDomainsMap acc.1.failureDomainsMap u.ClusterDomain entry.1
    ({ acc.1 with nodeMap := setA entry.1 ni acc.1.nodeMap, failureDomainsMap := fdm },
     if ni.QuorumMember then
       setA u.ClusterDomain ((lookupA u.ClusterDomain acc.2).getD 0 + 1) acc.2
     else acc.2)
  | none =>
    (acc.1,
     if entry.2.QuorumMember then
       setA zeroNodeUpdate.ClusterDomain
         ((lookupA zeroNodeUpdate.ClusterDomain acc.2).getD 0 + 1) acc.2
     else acc.2)

/-- One removal of the reconcile loop: `removeNodeUnlocked` with the error
ignored, as `updateCluster` does. -/
def removeStep (st : Store) (id : NodeId) : Store :=
  (removeNodeUnlocked st id).1

/-- One addition of the reconcile loop: `addNodeUnlocked` with status DOWN and
the quorum flag and cluster domain of the peer record (the Go zero value on a
miss, which cannot happen for ids drawn from `peers`). -/
def addStep (peers : List (NodeId × NodeUpdate)) (now : Time) (st : Store)
    (id : NodeId) : Store :=
  let u := (lookupA id peers).getD zeroNodeUpdate
  addNodeUnlocked st id .NODE_STATUS_DOWN u.QuorumMember u.ClusterDomain now

/-- The first half of Go `updateCluster`: set the cluster size to the peer
count, remove every node-map id absent from `peers`, and add every peer id
absent from the node map with status DOWN and the peer's quorum flag and
domain. -/
def reconciledStore (s : Store) (peers : List (NodeId × NodeUpdate)) (now : Time) :
    Store :=
  let removeNodeIds := (keysA s.nodeMap).filter (fun id => ¬ memA id peers)
  let addNodeIds := (keysA peers).filter (fun id => ¬ memA id s.nodeMap)
  let s1 := { s with clusterSize := peers.length }
  let s2 := removeNodeIds.foldl removeStep s1
  addNodeIds.foldl (addStep peers now) s2

/-- Go `updateCluster`: reconcile removals and additions, then refresh every
remaining entry from `peers`, re-index the failure-domain map, and return the
per-domain quorum-member counts. -/
def updateCluster (s : Store) (peers : List (NodeId × NodeUpdate)) (now : Time) :
    Store × List (String × Nat) :=
  let s3 := reconciledStore s peers now
  s3.nodeMap.foldl (updateClusterStep peers) (s3, [])

/-- The node record created by `addNodeUnlocked` for a previously unknown id. -/
def addedNode (id : NodeId) (status : NodeStatus) (quorumMember : Bool)
    (failureDomain : String) (now : Time) : NodeInfo :=
  { Id := id, GenNumber := 0, LastUpdateTs := now, WaitForGenUpdateTs := now,
    Status := status, Value := some [], QuorumMember := quorumMember,
    ClusterDomain := failureDomain }

/-- Modelled from the spec: the public `UpdateSelfClusterDomain` entry point
is not among the vendored sources (only the private `updateSelfClusterDomain`
and `updateClusterDomainsMap` are).  Per section 4.1 and scenario S5 of the
spec, it applies `updateSelfClusterDomain` and, exactly when the domain
changed, re-indexes the self id in the failure-domain map. -/
def UpdateSelfClusterDomain (s : Store) (d : String) (now : Time) : Store × Bool :=
  let r := updateSelfClusterDomain s d now
  if r.2 then
    ({ r.1 with failureDomainsMap :=
        updateClusterDomainsMap r.1.failureDomainsMap d s.id }, true)
  else r

/-- The store's mutating operations, for stating invariants over reachable
states.  `updateSelfClusterDomain` appears through its spec-modelled public
wrapper. -/
inductive Op where
  | updateSelf (k : StoreKey) (v : Val) (now : Time)
  | updateNodeStatus (id : NodeId) (st : NodeStatus) (now : Time)
  | addNode (id : NodeId) (st : NodeStatus) (qm : Bool) (fd : String) (now : Time)
  | removeNode (id : NodeId)
  | updateSelfClusterDomain (d : String) (now : Time)
  | updateCluster (peers : List (NodeId × NodeUpdate)) (now : Time)
  | update (diff : NodeInfoMap)

/-- Apply one operation; `none` only for the `UpdateSelf` nil-map panic. -/
def applyOp (op : Op) (s : Store) : Option Store :=
  match op with
  | .updateSelf k v now => UpdateSelf s k v now
  | .updateNodeStatus id st now => some (UpdateNodeStatus s id st now).1
  | .addNode id st qm fd now => some (AddNode s id st qm fd now)
  | .removeNode id => some (RemoveNode s id).1
  | .updateSelfClusterDomain d now => some (UpdateSelfClusterDomain s d now).1
  | .updateCluster peers now => some (updateCluster s peers now).1
  | .update diff => some (Update s diff)

/-- States reachable from a freshly constructed store by the operations. -/
inductive Reachable : Store → Prop where
  | init (id : NodeId) (version clusterId selfClusterDomain : String) (now : Time) :
      Reachable (NewGossipStore id version clusterId selfClusterDomain now)
  | step {s s' : Store} (op : Op) :
      Reachable s → applyOp op s = some s' → Reachable s'

/-- The buckets of the failure-domain map are pairwise disjoint: no node id
appears in two buckets stored under distinct domain labels. -/
def BucketsDisjoint (fdm : List (String × NodeIdMap)) : Prop :=
  ∀ d1 d2 l1 l2, d1 ≠ d2 → lookupA d1 fdm = some l1 → lookupA d2 fdm = some l2 →
    ∀ id, ¬ (memA id l1 = true ∧ memA id l2 = true)

/-- The node id sits in the bucket of domain `fd` and in no other bucket
(element-wise, so also in no shadowed duplicate binding). -/
def InBucketOnly (fdm : List (String × NodeIdMap)) (fd : String) (nodeId : NodeId) : Prop :=
  (∃ l, lookupA fd fdm = some l ∧ memA nodeId l = true) ∧
  (∀ p ∈ fdm, p.1 ≠ fd → memA nodeId p.2 = false)

/-- Guard under which an operation is expected to keep the self entry: every
operation except removing self and reconciling against a peer map lacking
self. -/
def keepsSelf (op : Op) (s : Store) : Prop :=
  match op with
  | .removeNode id => id ≠ s.id
  | .updateCluster peers _ => memA s.id peers = true
  | _ => True

/-- The per-domain quorum-member accounting performed by one iteration of the
final loop of `updateCluster`, isolated from the store mutation (the Go loop
computes it from the `peers` lookup and, on a miss, the unrefreshed entry). -/
def qmmStep (peers : List (NodeId × NodeUpdate)) (q : List (String × Nat))
    (entry : NodeId × NodeInfo) : List (String × Nat) :=
  match lookupA entry.1 peers with
  | some u =>
    if u.QuorumMember then
      setA u.ClusterDomain ((lookupA u.ClusterDomain q).getD 0 + 1) q
    else q
  | none =>
    if entry.2.QuorumMember then
      setA zeroNodeUpdate.ClusterDomain
        ((lookupA zeroNodeUpdate.ClusterDomain q).getD 0 + 1) q
    else q

/-- The value rewrite that the final loop of `updateCluster` applies to one
node-map entry: refresh quorum membership, cluster domain and address from
`peers` when the id is a peer, otherwise leave the value alone. -/
def refreshVal (peers : List (NodeId × NodeUpdate)) (entry : NodeId × NodeInfo) :
    NodeInfo :=
  match lookupA entry.1 peers with
  | some u =>
    { entry.2 with
      QuorumMember := u.QuorumMember
      ClusterDomain := u.ClusterDomain
      Addr := u.Addr }
  | none => entry.2

/-- The entry rewrite of the final loop of `updateCluster`: keys are kept,
values are refreshed. -/
def refreshEntry (peers : List (NodeId × NodeUpdate)) (entry : NodeId × NodeInfo) :
    NodeId × NodeInfo :=
  (entry.1, refreshVal peers entry)

/-- Self node of the concrete scenarios: id "A", domain "d1", initialized at
time 0. -/
def storeA : Store := NewGossipStore "A" "v1" "C" "d1" 0

/-- Concrete store whose node "B" carries a nil value map and a valid status. -/
def storeNilValue : Store :=
  { nodeMap := [("B", { Id := "B", Status := .NODE_STATUS_UP, Value := none })] }

/-- Concrete store of the merge scenario: the initialized store after
`AddNode("B", DOWN, true, "d1")` at time 1. -/
def storeAB : Store := AddNode storeA "B" .NODE_STATUS_DOWN true "d1" 1

/-- Concrete remote record for node "B" in the merge scenario. -/
def remoteB : NodeInfo :=
  { Id := "B", LastUpdateTs := 9, Status := .NODE_STATUS_UP, Value := some [("k", 7)] }

/-- Concrete reachable store of the failure-domain counterexample: reconcile
indexes "A" under "d1", then `AddNode` moves its cluster domain to "d2"
without touching the index. -/
def storeC4 : Store :=
  AddNode (updateCluster storeA [("A", ⟨true, "d1", "a1"⟩)] 1).1
    "A" .NODE_STATUS_UP true "d2" 2

/-! ## Association-list lemmas -/

theorem lookupA_nil {κ ν : Type} [DecidableEq κ] (k : κ) :
    lookupA k ([] : List (κ × ν)) = none := rfl

theorem lookupA_cons {κ ν : Type} [DecidableEq κ] (k : κ) (p : κ × ν) (ps : List (κ × ν)) :
    lookupA k (p :: ps) = if p.1 = k then some p.2 else lookupA k ps := rfl

theorem setA_nil {κ ν : Type} [DecidableEq κ] (k : κ) (v : ν) :
    setA k v ([] : List (κ × ν)) = [(k, v)] := rfl

theorem setA_cons {κ ν : Type} [DecidableEq κ] (k : κ) (v : ν) (p : κ × ν)
    (ps : List (κ × ν)) :
    setA k v (p :: ps) = if p.1 = k then (k, v) :: ps else p :: setA k v ps := rfl

theorem eraseA_nil {κ ν : Type} [DecidableEq κ] (k : κ) :
    eraseA k ([] : List (κ × ν)) = [] := rfl

theorem eraseA_cons {κ ν : Type} [DecidableEq κ] (k : κ) (p : κ × ν) (ps : List (κ × ν)) :
    eraseA k (p :: ps) = if p.1 = k then eraseA k ps else p :: eraseA k ps := by
  by_cases hp : p.1 = k <;> simp [eraseA, hp, List.filter]

theorem lookupA_setA_self {κ ν : Type} [DecidableEq κ] (k : κ) (v : ν) (l : List (κ × ν)) :
    lookupA k (setA k v l) = some v := by
  induction l with
  | nil => simp [setA_nil, lookupA_cons]
  | cons p ps ih =>
    by_cases hp : p.1 = k
    · simp [setA_cons, hp, lookupA_cons]
    · simp [setA_cons, hp, lookupA_cons, ih]

theorem lookupA_setA_ne {κ ν : Type} [DecidableEq κ] {k j : κ} (v : ν) (l : List (κ × ν))
    (h : j ≠ k) : lookupA j (setA k v l) = lookupA j l := by
  have hkj : ¬ (k = j) := fun hk => h hk.symm
  induction l with
  | nil => simp [setA_nil, lookupA_cons, lookupA_nil, hkj]
  | cons p ps ih =>
    by_cases hp : p.1 = k
    · have hpj : ¬ p.1 = j := by rw [hp]; exact hkj
      simp [setA_cons, hp, lookupA_cons, hkj, hpj]
    · by_cases hj : p.1 = j
      · rw [setA_cons, if_neg hp, lookupA_cons, if_pos hj, lookupA_cons, if_pos hj]
      · simp [setA_cons, hp, lookupA_cons, hj, ih]

theorem lookupA_eraseA_self {κ ν : Type} [DecidableEq κ] (k : κ) (l : List (κ × ν)) :
    lookupA k (eraseA k l) = none := by
  induction l with
  | nil => rfl
  | cons p ps ih =>
    by_cases hp : p.1 = k
    · simpa [eraseA_cons, hp] using ih
    · simpa [eraseA_cons, hp, lookupA_cons] using ih

theorem lookupA_eraseA_ne {κ ν : Type} [DecidableEq κ] {k j : κ} (l : List (κ × ν))
    (h : j ≠ k) : lookupA j (eraseA k l) = lookupA j l := by
  induction l with
  | nil => rfl
  | cons p ps ih =>
    by_cases hp : p.1 = k
    · have hpj : ¬ p.1 = j := by rw [hp]; exact fun hk => h hk.symm
      rw [eraseA_cons, if_pos hp, ih, lookupA_cons, if_neg hpj]
    · by_cases hj : p.1 = j
      · rw [eraseA_cons, if_neg hp, lookupA_cons, if_pos hj, lookupA_cons, if_pos hj]
      · simp [eraseA_cons, hp, lookupA_cons, hj, ih]

theorem memA_iff_keys {κ ν : Type} [DecidableEq κ] (k : κ) (l : List (κ × ν)) :
    memA k l = true ↔ k ∈ keysA l := by
  induction l with
  | nil => simp [memA, lookupA_nil, keysA]
  | cons p ps ih =>
    by_cases hp : p.1 = k
    · simp [memA, lookupA_cons, keysA, hp]
    · simp only [memA, lookupA_cons, if_neg hp, keysA, List.map_cons, List.mem_cons]
      rw [show (lookupA k ps).isSome = memA k ps from rfl]
      constructor
      · intro hm; exact Or.inr (ih.mp hm)
      · rintro (hk | hk)
        · exact absurd hk.symm hp
        · exact ih.mpr hk

theorem lookupA_mem {κ ν : Type} [DecidableEq κ] {k : κ} {v : ν} {l : List (κ × ν)}
    (h : lookupA k l = some v) : (k, v) ∈ l := by
  induction l with
  | nil => simp [lookupA_nil] at h
  | cons p ps ih =>
    obtain ⟨p1, p2⟩ := p
    by_cases hp : p1 = k
    · rw [lookupA_cons] at h
      simp only [hp, if_pos rfl] at h
      obtain rfl : p2 = v := by injection h
      subst hp
      exact List.mem_cons_self _ _
    · rw [lookupA_cons] at h
      simp only [if_neg hp] at h
      exact List.mem_cons_of_mem _ (ih h)

theorem lookupA_isSome_of_mem {κ ν : Type} [DecidableEq κ] {k : κ} {v : ν}
    {l : List (κ × ν)} (h : (k, v) ∈ l) : (lookupA k l).isSome = true := by
  induction l with
  | nil => simp at h
  | cons p ps ih =>
    rcases List.mem_cons.mp h with h1 | h1
    · rw [← h1, lookupA_cons]; simp
    · by_cases hp : p.1 = k
      · simp [lookupA_cons, hp]
      · simp only [lookupA_cons, if_neg hp]
        exact ih h1

theorem lookupA_of_mem_nodup {κ ν : Type} [DecidableEq κ] {k : κ} {v : ν}
    {l : List (κ × ν)} (hnd : (keysA l).Nodup) (h : (k, v) ∈ l) :
    lookupA k l = some v := by
  induction l with
  | nil => simp at h
  | cons p ps ih =>
    simp only [keysA, List.map_cons, List.nodup_cons] at hnd
    rcases List.mem_cons.mp h with h1 | h1
    · rw [← h1, lookupA_cons]; simp
    · have hk : ¬ p.1 = k := by
        intro hk
        apply hnd.1
        rw [hk]
        exact (memA_iff_keys k ps).mp (lookupA_isSome_of_mem h1)
      rw [lookupA_cons, if_neg hk]
      exact ih hnd.2 h1

theorem keysA_nil {κ ν : Type} : keysA ([] : List (κ × ν)) = [] := rfl

theorem keysA_cons {κ ν : Type} (p : κ × ν) (l : List (κ × ν)) :
    keysA (p :: l) = p.1 :: keysA l := rfl

theorem mem_setA {κ ν : Type} [DecidableEq κ] {k : κ} {v : ν} {q : κ × ν}
    {l : List (κ × ν)} (h : q ∈ setA k v l) : q ∈ l ∨ q = (k, v) := by
  induction l with
  | nil =>
    rw [setA_nil] at h
    exact Or.inr (List.mem_singleton.mp h)
  | cons p ps ih =>
    by_cases hp : p.1 = k
    · rw [setA_cons, if_pos hp] at h
      rcases List.mem_cons.mp h with h1 | h1
      · exact Or.inr h1
      · exact Or.inl (List.mem_cons_of_mem _ h1)
    · rw [setA_cons, if_neg hp] at h
      rcases List.mem_cons.mp h with h1 | h1
      · exact Or.inl (h1 ▸ List.mem_cons_self _ _)
      · rcases ih h1 with h2 | h2
        · exact Or.inl (List.mem_cons_of_mem _ h2)
        · exact Or.inr h2

theorem keysA_setA {κ ν : Type} [DecidableEq κ] (k : κ) (v : ν) (l : List (κ × ν)) :
    keysA (setA k v l) = if memA k l then keysA l else keysA l ++ [k] := by
  induction l with
  | nil => simp [setA_nil, keysA, memA, lookupA_nil]
  | cons p ps ih =>
    by_cases hp : p.1 = k
    · simp [setA_cons, hp, keysA_cons, memA, lookupA_cons]
    · have hm : memA k (p :: ps) = memA k ps := by
        simp [memA, lookupA_cons, hp]
      rw [setA_cons, if_neg hp, hm, keysA_cons, keysA_cons, ih]
      by_cases h2 : memA k ps <;> simp [h2]

theorem nodup_keysA_setA {κ ν : Type} [DecidableEq κ] (k : κ) (v : ν)
    {l : List (κ × ν)} (h : (keysA l).Nodup) : (keysA (setA k v l)).Nodup := by
  rw [keysA_setA]
  by_cases hm : memA k l
  · simpa [hm]
  · rw [if_neg (by simp [hm])]
    rw [List.nodup_append]
    refine ⟨h, List.nodup_singleton _, ?_⟩
    intro a ha hb
    rw [List.mem_singleton] at hb
    subst hb
    exact hm ((memA_iff_keys _ _).mpr ha)

theorem nodup_keysA_eraseA {κ ν : Type} [DecidableEq κ] (k : κ)
    {l : List (κ × ν)} (h : (keysA l).Nodup) : (keysA (eraseA k l)).Nodup :=
  ((List.filter_sublist l).map Prod.fst).nodup h

theorem setA_eq_of_lookup {κ ν : Type} [DecidableEq κ] {k : κ} {v : ν}
    {l : List (κ × ν)} (h : lookupA k l = some v) : setA k v l = l := by
  induction l with
  | nil => simp [lookupA_nil] at h
  | cons p ps ih =>
    obtain ⟨p1, p2⟩ := p
    by_cases hp : p1 = k
    · subst hp
      rw [lookupA_cons] at h
      simp only [if_pos rfl] at h
      obtain rfl : p2 = v := by injection h
      rw [setA_cons]
      simp
    · rw [lookupA_cons] at h
      simp only [if_neg hp] at h
      rw [setA_cons, if_neg hp, ih h]

theorem lookupA_map {κ ν : Type} [DecidableEq κ] (g : κ × ν → ν) (k : κ)
    (l : List (κ × ν)) :
    lookupA k (l.map (fun p => (p.1, g p))) =
      Option.map (fun v => g (k, v)) (lookupA k l) := by
  induction l with
  | nil => rfl
  | cons p ps ih =>
    obtain ⟨p1, p2⟩ := p
    by_cases hp : p1 = k
    · subst hp
      simp [List.map_cons, lookupA_cons]
    · simp [List.map_cons, lookupA_cons, hp, ih]

theorem map_id_on {α : Type} {f : α → α} {l : List α} (h : ∀ x ∈ l, f x = x) :
    l.map f = l := by
  induction l with
  | nil => rfl
  | cons x xs ih =>
    rw [List.map_cons, h x (List.mem_cons_self _ _),
        ih (fun y hy => h y (List.mem_cons_of_mem _ hy))]

theorem foldl_inv {σ α : Type} {f : σ → α → σ} {Q : σ → Prop} :
    ∀ (l : List α) (st : σ), (∀ t x, x ∈ l → Q t → Q (f t x)) → Q st → Q (l.foldl f st)
  | [], _, _, h => h
  | x :: xs, st, hstep, h =>
    foldl_inv xs (f st x) (fun t y hy => hstep t y (List.mem_cons_of_mem _ hy))
      (hstep st x (List.mem_cons_self _ _) h)

theorem setA_append {κ ν : Type} [DecidableEq κ] {k : κ} (v : ν)
    {pre : List (κ × ν)} (l : List (κ × ν)) (h : ¬ k ∈ keysA pre) :
    setA k v (pre ++ l) = pre ++ setA k v l := by
  induction pre with
  | nil => rfl
  | cons p ps ih =>
    rw [keysA_cons, List.mem_cons] at h
    push_neg at h
    rw [List.cons_append, setA_cons, if_neg (fun hp => h.1 hp.symm), List.cons_append,
        ih h.2]

/-! ## Claim theorems: scenarios and error handling -/

/-- C5: on a store initialized with self node "A" in domain "d1",
`UpdateSelfClusterDomain "d2"` returns true, sets the self cluster domain to
"d2", and re-indexes the failure-domain map so that the "d1" bucket no longer
contains "A" while the "d2" bucket does; calling it again with "d2" returns
false and changes nothing. -/
theorem C5_updateSelfClusterDomain_scenario :
    (UpdateSelfClusterDomain storeA "d2" 3).2 = true ∧
    (lookupA "A" (UpdateSelfClusterDomain storeA "d2" 3).1.nodeMap).map
      NodeInfo.ClusterDomain = some "d2" ∧
    memA "A" ((lookupA "d1"
      (UpdateSelfClusterDomain storeA "d2" 3).1.failureDomainsMap).getD []) = false ∧
    memA "A" ((lookupA "d2"
      (UpdateSelfClusterDomain storeA "d2" 3).1.failureDomainsMap).getD []) = true ∧
    UpdateSelfClusterDomain (UpdateSelfClusterDomain storeA "d2" 3).1 "d2" 4 =
      ((UpdateSelfClusterDomain storeA "d2" 3).1, false) := by
  refine ⟨rfl, rfl, rfl, rfl, rfl⟩

/-- C7: `UpdateNodeStatus`, `RemoveNode` and `GetLocalNodeInfo` report an
unknown-node error exactly when the id is not in the node map, and on error
the store is returned completely unchanged. -/
theorem C7_unknown_node_errors (s : Store) (id : NodeId) (st : NodeStatus) (now : Time) :
    ((UpdateNodeStatus s id st now).2 = true ↔ lookupA id s.nodeMap = none) ∧
    ((UpdateNodeStatus s id st now).2 = true → (UpdateNodeStatus s id st now).1 = s) ∧
    ((RemoveNode s id).2 = true ↔ lookupA id s.nodeMap = none) ∧
    ((RemoveNode s id).2 = true → (RemoveNode s id).1 = s) ∧
    (GetLocalNodeInfo s id = none ↔ lookupA id s.nodeMap = none) := by
  unfold UpdateNodeStatus RemoveNode removeNodeUnlocked GetLocalNodeInfo
  cases h : lookupA id s.nodeMap <;> simp

/-- C7 witness: on the initialized store, node "B" is unknown, the three
operations report the error, and the mutating ones leave the store intact. -/
theorem C7_unknown_node_errors_witness :
    (UpdateNodeStatus storeA "B" .NODE_STATUS_UP 1).1 = storeA ∧
    (RemoveNode storeA "B").1 = storeA ∧
    GetLocalNodeInfo storeA "B" = none := by
  have h := C7_unknown_node_errors storeA "B" .NODE_STATUS_UP 1
  exact ⟨h.2.1 (by decide), h.2.2.2.1 (by decide), h.2.2.2.2.mpr (by decide)⟩

/-- C10: `UpdateSelf` succeeds whenever the self entry is present with a
non-nil value map (as `InitStore` establishes), returns the panic marker when
the self entry is absent, and in particular panics right after
`RemoveNode(selfId)`. -/
theorem C10_UpdateSelf_safety (s : Store) (k : StoreKey) (v : Val) (now : Time) :
    (∀ ni m, lookupA s.id s.nodeMap = some ni → ni.Value = some m →
      (UpdateSelf s k v now).isSome = true) ∧
    (lookupA s.id s.nodeMap = none → UpdateSelf s k v now = none) ∧
    UpdateSelf ((RemoveNode s s.id).1) k v now = none := by
  refine ⟨?_, ?_, ?_⟩
  · intro ni m h1 h2
    unfold UpdateSelf
    simp [h1, h2]
  · intro h
    unfold UpdateSelf
    simp [h, zeroNodeInfo]
  · unfold UpdateSelf RemoveNode removeNodeUnlocked
    cases h : lookupA s.id s.nodeMap with
    | none => simp [h, zeroNodeInfo]
    | some ni => simp [lookupA_eraseA_self, zeroNodeInfo]

/-- C10 witness: on the initialized store, `UpdateSelf` succeeds, and after
removing the self entry it panics. -/
theorem C10_UpdateSelf_safety_witness :
    (UpdateSelf storeA "k" 7 2).isSome = true ∧
    UpdateSelf ((RemoveNode storeA storeA.id).1) "k" 7 2 = none := by
  have h := C10_UpdateSelf_safety storeA "k" 7 2
  refine ⟨h.1 { Id := "A", Status := .NODE_STATUS_NOT_IN_QUORUM, Value := some [],
                ClusterDomain := "d1" } [] (by decide) rfl, h.2.2⟩

/-- C1 counterexample: on the initialized store with self id "A", the claim
that `RemoveNode(selfId)` leaves the self entry in place, and that
`updateCluster` with a peer map lacking the self id leaves it in place, is
false: both calls delete the self entry. -/
theorem C1_counterexample :
    storeA.id = "A" ∧
    memA "A" storeA.nodeMap = true ∧
    lookupA "A" (RemoveNode storeA "A").1.nodeMap = none ∧
    lookupA "A" (updateCluster storeA [("B", ⟨true, "d2", "a2"⟩)] 5).1.nodeMap = none := by
  refine ⟨rfl, rfl, rfl, rfl⟩

/-- C3 counterexample: reconciling the initialized store (self id "A") against
the peer map with single key "B" yields a node map whose key set is exactly
the peer keys; "A" is gone, so the key set is not the claimed
`P.keys ∪ selfId`. -/
theorem C3_counterexample :
    storeA.id = "A" ∧
    memA "A" (updateCluster storeA [("B", ⟨true, "d2", "a2"⟩)] 5).1.nodeMap = false := by
  refine ⟨rfl, rfl⟩

/-- C6 counterexample: `updateCluster` at time 7 refreshes the existing self
entry's cluster domain from "d1" to "d2" (a field mutation) without stamping
`lastUpdateTs`, which stays 0. -/
theorem C6_counterexample :
    (lookupA "A" storeA.nodeMap).map NodeInfo.ClusterDomain = some "d1" ∧
    (lookupA "A" (updateCluster storeA [("A", ⟨true, "d2", "a1"⟩)] 7).1.nodeMap).map
      NodeInfo.ClusterDomain = some "d2" ∧
    (lookupA "A" (updateCluster storeA [("A", ⟨true, "d2", "a1"⟩)] 7).1.nodeMap).map
      NodeInfo.LastUpdateTs = some 0 ∧
    (0 : Time) ≠ 7 := by
  refine ⟨rfl, rfl, rfl, by decide⟩

/-! ## Merge engine (Update) -/

theorem updateOne_lookup_ne (selfId : NodeId) (m : NodeInfoMap) (p : NodeId × NodeInfo)
    {j : NodeId} (h : p.1 ≠ j) : lookupA j (updateOne selfId m p) = lookupA j m := by
  unfold updateOne
  by_cases hs : p.1 = selfId
  · simp [hs]
  · simp only [if_neg hs]
    cases lookupA p.1 m with
    | none => rfl
    | some loc =>
      dsimp only
      by_cases hc : ¬ statusValid loc.Status = true ∨ loc.LastUpdateTs < p.2.LastUpdateTs
      · rw [if_pos hc]
        exact lookupA_setA_ne _ _ (fun hj => h hj.symm)
      · rw [if_neg hc]

theorem foldl_updateOne_not_mem (selfId : NodeId) {j : NodeId} :
    ∀ (diff : NodeInfoMap) (m : NodeInfoMap), ¬ j ∈ keysA diff →
      lookupA j (diff.foldl (updateOne selfId) m) = lookupA j m
  | [], _, _ => rfl
  | q :: rest, m, h => by
    rw [keysA_cons, List.mem_cons] at h
    push_neg at h
    rw [List.foldl_cons,
        foldl_updateOne_not_mem selfId rest (updateOne selfId m q) h.2,
        updateOne_lookup_ne selfId m q (fun hq => h.1 hq.symm)]

theorem foldl_updateOne_lookup (selfId : NodeId) :
    ∀ (diff : NodeInfoMap), (keysA diff).Nodup →
      ∀ (m : NodeInfoMap) (id : NodeId) (remote : NodeInfo), (id, remote) ∈ diff →
      lookupA id (diff.foldl (updateOne selfId) m) =
        if id = selfId then lookupA id m
        else
          match lookupA id m with
          | none => none
          | some loc =>
            if ¬ statusValid loc.Status ∨ loc.LastUpdateTs < remote.LastUpdateTs then
              some { remote with Status := loc.Status }
            else some loc
  | [], _, _, _, _, hmem => absurd hmem (List.not_mem_nil _)
  | q :: rest, hnd, m, id, remote, hmem => by
    rw [keysA_cons, List.nodup_cons] at hnd
    rcases List.mem_cons.mp hmem with h1 | h1
    · obtain rfl : q = (id, remote) := h1.symm
      have hid : ¬ id ∈ keysA rest := hnd.1
      rw [List.foldl_cons, foldl_updateOne_not_mem selfId rest _ hid]
      unfold updateOne
      by_cases hs : id = selfId
      · simp [hs]
      · simp only [if_neg hs, if_pos]
        cases hl : lookupA id m with
        | none => simp [hl]
        | some loc =>
          simp only [hl]
          by_cases hc : ¬ statusValid loc.Status = true ∨
              loc.LastUpdateTs < remote.LastUpdateTs
          · rw [if_pos hc, if_pos hc]
            exact lookupA_setA_self _ _ _
          · rw [if_neg hc, if_neg hc]
            exact hl
    · have hq : q.1 ≠ id := by
        intro hq
        apply hnd.1
        rw [hq]
        exact (memA_iff_keys id rest).mp (lookupA_isSome_of_mem h1)
      rw [List.foldl_cons,
          foldl_updateOne_lookup selfId rest hnd.2 (updateOne selfId m q) id remote h1,
          updateOne_lookup_ne selfId m q hq]

/-- C2: `Update(diff)` leaves ids equal to self or unknown untouched and never
introduces new ids; for a known non-self id with local entry `loc`, the remote
record is adopted exactly when the local status is not valid or the local
timestamp is strictly older (ties keep the incumbent), and adoption stores the
remote record with every field taken from it except the status, which keeps
the local value. -/
theorem C2_Update_merge (s : Store) (diff : NodeInfoMap)
    (hnd : (keysA diff).Nodup) :
    (∀ id remote, (id, remote) ∈ diff →
      lookupA id (Update s diff).nodeMap =
        if id = s.id then lookupA id s.nodeMap
        else
          match lookupA id s.nodeMap with
          | none => none
          | some loc =>
            if ¬ statusValid loc.Status ∨ loc.LastUpdateTs < remote.LastUpdateTs then
              some { remote with Status := loc.Status }
            else some loc) ∧
    (∀ id, ¬ id ∈ keysA diff →
      lookupA id (Update s diff).nodeMap = lookupA id s.nodeMap) := by
  constructor
  · intro id remote hmem
    exact foldl_updateOne_lookup s.id diff hnd s.nodeMap id remote hmem
  · intro id hid
    exact foldl_updateOne_not_mem s.id diff s.nodeMap hid

/-- C2 witness: merging a remote record for the known node "B" with a newer
timestamp adopts its fields but keeps the local DOWN status; the unknown id
"C" stays unknown. -/
theorem C2_Update_merge_witness :
    lookupA "B" (Update storeAB [("B", remoteB)]).nodeMap =
      some { remoteB with Status := .NODE_STATUS_DOWN } ∧
    lookupA "C" (Update storeAB [("B", remoteB)]).nodeMap = none := by
  have h := C2_Update_merge storeAB [("B", remoteB)] (by decide)
  constructor
  · rw [h.1 "B" remoteB (by simp)]
    decide
  · rw [h.2 "C" (by decide)]
    decide

/-! ## GetStoreKeyValue -/

theorem lookupA_eq_none {κ ν : Type} [DecidableEq κ] {k : κ} {l : List (κ × ν)}
    (h : ¬ k ∈ keysA l) : lookupA k l = none := by
  cases hl : lookupA k l with
  | none => rfl
  | some v => exact absurd ((memA_iff_keys k l).mp (by simp [memA, hl])) h

theorem foldl_getKV_lookup (key : StoreKey) :
    ∀ (l : NodeInfoMap), (keysA l).Nodup →
      ∀ (acc : List (NodeId × NodeValue)) (id : NodeId),
      lookupA id (l.foldl (getKVStep key) acc) =
        match lookupA id l with
        | some ni =>
          match getKVEntry key ni with
          | some n => some n
          | none => lookupA id acc
        | none => lookupA id acc
  | [], _, acc, id => rfl
  | p :: ps, hnd, acc, id => by
    rw [keysA_cons, List.nodup_cons] at hnd
    rw [List.foldl_cons]
    by_cases hp : p.1 = id
    · subst hp
      have hps : lookupA p.1 ps = none :=
        lookupA_eq_none (fun hmem => hnd.1 hmem)
      rw [foldl_getKV_lookup key ps hnd.2 (getKVStep key acc p) p.1, hps,
          lookupA_cons, if_pos rfl]
      unfold getKVStep
      cases he : getKVEntry key p.2 with
      | some n => simp [he, lookupA_setA_self]
      | none => simp [he]
    · rw [foldl_getKV_lookup key ps hnd.2 (getKVStep key acc p) id,
          lookupA_cons, if_neg hp]
      have hstep : lookupA id (getKVStep key acc p) = lookupA id acc := by
        unfold getKVStep
        cases getKVEntry key p.2 with
        | some n => exact lookupA_setA_ne _ _ (fun hj => hp hj.symm)
        | none => rfl
      rw [hstep]

/-- C8 (amended): `GetStoreKeyValue(k)` contains an entry for a node exactly
when its status is valid, its value map is non-nil, and the value map is
empty or holds `k`; the entry carries the node's id, generation number, last
update timestamp, status, and its value for `k` (absent when the map is
empty). -/
theorem C8_GetStoreKeyValue_spec (s : Store) (k : StoreKey)
    (hnd : (keysA s.nodeMap).Nodup) (id : NodeId) :
    lookupA id (GetStoreKeyValue s k) =
      match lookupA id s.nodeMap with
      | none => none
      | some ni =>
        match ni.Value with
        | none => none
        | some m =>
          if statusValid ni.Status ∧ (m.length = 0 ∨ (lookupA k m).isSome) then
            some { Id := ni.Id, GenNumber := ni.GenNumber,
                   LastUpdateTs := ni.LastUpdateTs, Status := ni.Status,
                   Value := lookupA k m }
          else none := by
  unfold GetStoreKeyValue
  rw [foldl_getKV_lookup k s.nodeMap hnd [] id]
  cases lookupA id s.nodeMap with
  | none => rfl
  | some ni =>
    dsimp only
    unfold getKVEntry
    cases ni.Value with
    | none => rfl
    | some m =>
      dsimp only
      by_cases hv : statusValid ni.Status
      · by_cases hm : m.length = 0 ∨ (lookupA k m).isSome
        · rw [if_pos hv, if_pos hm, if_pos ⟨hv, hm⟩]
        · rw [if_pos hv, if_neg hm, if_neg (fun hc => hm hc.2)]
          rfl
      · rw [if_neg hv, if_neg (fun hc => hv hc.1)]
        rfl

/-- C8 witness: on the concrete two-node store, the self node "A" (valid
status, empty value map) is surfaced with an absent value, by the amended
characterization. -/
theorem C8_GetStoreKeyValue_spec_witness :
    lookupA "A" (GetStoreKeyValue storeAB "q") =
      some { Id := "A", GenNumber := 0, LastUpdateTs := 0,
             Status := .NODE_STATUS_NOT_IN_QUORUM, Value := none } := by
  have h := C8_GetStoreKeyValue_spec storeAB "q" (by decide) "A"
  rw [h]
  decide

/-- C8 counterexample: a node with a valid status and a nil value map (so the
value map holds no keys, hence is empty) is omitted from `GetStoreKeyValue`,
contradicting the claimed inclusion condition, which ignores nil-ness. -/
theorem C8_counterexample :
    (lookupA "B" storeNilValue.nodeMap).map NodeInfo.Status =
      some .NODE_STATUS_UP ∧
    statusValid .NODE_STATUS_UP = true ∧
    (lookupA "B" storeNilValue.nodeMap).map NodeInfo.Value = some none ∧
    lookupA "B" (GetStoreKeyValue storeNilValue "k") = none := by
  refine ⟨rfl, rfl, rfl, rfl⟩

/-! ## Reconciler: membership lemmas and the removal and addition phases -/

theorem memA_setA_self {κ ν : Type} [DecidableEq κ] (k : κ) (v : ν) (l : List (κ × ν)) :
    memA k (setA k v l) = true := by
  simp [memA, lookupA_setA_self]

theorem memA_setA_ne {κ ν : Type} [DecidableEq κ] {k j : κ} (v : ν) (l : List (κ × ν))
    (h : j ≠ k) : memA j (setA k v l) = memA j l := by
  simp [memA, lookupA_setA_ne v l h]

theorem memA_eraseA_ne {κ ν : Type} [DecidableEq κ] {k j : κ} (l : List (κ × ν))
    (h : j ≠ k) : memA j (eraseA k l) = memA j l := by
  simp [memA, lookupA_eraseA_ne l h]

theorem memA_eraseA_self {κ ν : Type} [DecidableEq κ] (k : κ) (l : List (κ × ν)) :
    memA k (eraseA k l) = false := by
  simp [memA, lookupA_eraseA_self]

theorem memA_setA_mono {κ ν : Type} [DecidableEq κ] {j k : κ} (v : ν)
    {l : List (κ × ν)} (h : memA j l = true) : memA j (setA k v l) = true := by
  by_cases hjk : j = k
  · subst hjk; exact memA_setA_self j v l
  · rw [memA_setA_ne v l hjk]; exact h

theorem removeStep_lookup_self (st : Store) (id : NodeId) :
    lookupA id (removeStep st id).nodeMap = none := by
  unfold removeStep removeNodeUnlocked
  cases h : lookupA id st.nodeMap with
  | none => exact h
  | some ni => exact lookupA_eraseA_self id st.nodeMap

theorem removeStep_lookup_ne (st : Store) (id : NodeId) {j : NodeId} (h : j ≠ id) :
    lookupA j (removeStep st id).nodeMap = lookupA j st.nodeMap := by
  unfold removeStep removeNodeUnlocked
  cases hl : lookupA id st.nodeMap with
  | none => rfl
  | some ni => exact lookupA_eraseA_ne st.nodeMap h

theorem removeFold_lookup : ∀ (l : List NodeId) (st : Store) (k : NodeId),
    lookupA k ((l.foldl removeStep st).nodeMap) =
      if k ∈ l then none else lookupA k st.nodeMap
  | [], st, k => by simp
  | id :: rest, st, k => by
    rw [List.foldl_cons, removeFold_lookup rest (removeStep st id) k]
    by_cases hk : k ∈ id :: rest
    · rw [if_pos hk]
      rcases List.mem_cons.mp hk with h1 | h1
      · by_cases h2 : k ∈ rest
        · rw [if_pos h2]
        · rw [if_neg h2, h1]
          exact removeStep_lookup_self st id
      · rw [if_pos h1]
    · rw [List.mem_cons] at hk
      push_neg at hk
      rw [if_neg hk.2, if_neg (by rw [List.mem_cons]; push_neg; exact hk),
          removeStep_lookup_ne st id hk.1]

theorem addStep_lookup_ne (peers : List (NodeId × NodeUpdate)) (now : Time)
    (st : Store) (id : NodeId) {j : NodeId} (h : j ≠ id) :
    lookupA j (addStep peers now st id).nodeMap = lookupA j st.nodeMap := by
  unfold addStep addNodeUnlocked
  dsimp only
  cases lookupA id st.nodeMap with
  | some ni => exact lookupA_setA_ne _ _ h
  | none => exact lookupA_setA_ne _ _ h

theorem addStep_memA_mono (peers : List (NodeId × NodeUpdate)) (now : Time)
    (st : Store) (id : NodeId) {j : NodeId} (h : memA j st.nodeMap = true) :
    memA j (addStep peers now st id).nodeMap = true := by
  unfold addStep addNodeUnlocked
  dsimp only
  cases lookupA id st.nodeMap with
  | some ni => exact memA_setA_mono _ h
  | none => exact memA_setA_mono _ h

theorem addFold_lookup_not_mem (peers : List (NodeId × NodeUpdate)) (now : Time) :
    ∀ (l : List NodeId) (st : Store) {k : NodeId}, ¬ k ∈ l →
      lookupA k ((l.foldl (addStep peers now) st).nodeMap) = lookupA k st.nodeMap
  | [], _, _, _ => rfl
  | id :: rest, st, k, h => by
    rw [List.mem_cons] at h
    push_neg at h
    rw [List.foldl_cons, addFold_lookup_not_mem peers now rest _ h.2,
        addStep_lookup_ne peers now st id h.1]

theorem addFold_memA (peers : List (NodeId × NodeUpdate)) (now : Time) :
    ∀ (l : List NodeId) (st : Store) {k : NodeId}, k ∈ l →
      memA k ((l.foldl (addStep peers now) st).nodeMap) = true
  | [], _, k, h => absurd h (List.not_mem_nil k)
  | id :: rest, st, k, h => by
    rw [List.foldl_cons]
    rcases List.mem_cons.mp h with h1 | h1
    · subst h1
      refine foldl_inv rest (addStep peers now st k)
        (fun t x _ ht => addStep_memA_mono peers now t x ht) ?_
      unfold addStep addNodeUnlocked
      dsimp only
      cases lookupA k st.nodeMap with
      | some ni => exact memA_setA_self _ _ _
      | none => exact memA_setA_self _ _ _
    · exact addFold_memA peers now rest _ h1

theorem addStep_lookup_fresh (peers : List (NodeId × NodeUpdate)) (now : Time)
    (st : Store) (id : NodeId) (hl : lookupA id st.nodeMap = none) :
    lookupA id (addStep peers now st id).nodeMap =
      some (addedNode id .NODE_STATUS_DOWN
        ((lookupA id peers).getD zeroNodeUpdate).QuorumMember
        ((lookupA id peers).getD zeroNodeUpdate).ClusterDomain now) := by
  unfold addStep addNodeUnlocked
  dsimp only
  rw [hl]
  dsimp only
  rw [lookupA_setA_self]
  rfl

theorem addFold_lookup_fresh (peers : List (NodeId × NodeUpdate)) (now : Time) :
    ∀ (l : List NodeId), l.Nodup → ∀ (st : Store) {id : NodeId}, id ∈ l →
      lookupA id st.nodeMap = none →
      lookupA id ((l.foldl (addStep peers now) st).nodeMap) =
        some (addedNode id .NODE_STATUS_DOWN
          ((lookupA id peers).getD zeroNodeUpdate).QuorumMember
          ((lookupA id peers).getD zeroNodeUpdate).ClusterDomain now)
  | [], _, _, id, h, _ => absurd h (List.not_mem_nil id)
  | x :: rest, hnd, st, id, h, hl => by
    rw [List.nodup_cons] at hnd
    rw [List.foldl_cons]
    rcases List.mem_cons.mp h with h1 | h1
    · subst h1
      rw [addFold_lookup_not_mem peers now rest _ hnd.1]
      exact addStep_lookup_fresh peers now st id hl
    · have hx : id ≠ x := fun he => hnd.1 (he ▸ h1)
      exact addFold_lookup_fresh peers now rest hnd.2 _ h1
        (by rw [addStep_lookup_ne peers now st x hx]; exact hl)

/-! ## Reconciler: projections untouched by the phases -/

theorem removeStep_g {β : Type} (g : Store → β)
    (hg : ∀ (s : Store) (nm : NodeInfoMap), g { s with nodeMap := nm } = g s)
    (t : Store) (id : NodeId) : g (removeStep t id) = g t := by
  unfold removeStep removeNodeUnlocked
  cases lookupA id t.nodeMap with
  | none => rfl
  | some ni => exact hg t _

theorem addStep_g {β : Type} (g : Store → β)
    (hg : ∀ (s : Store) (nm : NodeInfoMap), g { s with nodeMap := nm } = g s)
    (peers : List (NodeId × NodeUpdate)) (now : Time) (t : Store) (id : NodeId) :
    g (addStep peers now t id) = g t := by
  unfold addStep addNodeUnlocked
  dsimp only
  cases lookupA id t.nodeMap with
  | some ni => exact hg t _
  | none => exact hg t _

theorem ucStep_g {β : Type} (g : Store → β)
    (hg : ∀ (s : Store) (nm : NodeInfoMap) (fd : List (String × NodeIdMap)),
      g { s with nodeMap := nm, failureDomainsMap := fd } = g s)
    (peers : List (NodeId × NodeUpdate)) (acc : Store × List (String × Nat))
    (entry : NodeId × NodeInfo) :
    g (updateClusterStep peers acc entry).1 = g acc.1 := by
  unfold updateClusterStep
  dsimp only
  cases lookupA entry.1 peers with
  | some u => exact hg acc.1 _ _
  | none => rfl

theorem foldl_proj {σ α β : Type} (g : σ → β) (f : σ → α → σ) (l : List α) (st : σ)
    (h : ∀ t x, x ∈ l → g (f t x) = g t) : g (l.foldl f st) = g st :=
  foldl_inv l st (fun t x hx (ht : g t = g st) => by rw [h t x hx]; exact ht) rfl

theorem reconciledStore_g {β : Type} (g : Store → β)
    (hg : ∀ (s : Store) (nm : NodeInfoMap), g { s with nodeMap := nm } = g s)
    (s : Store) (peers : List (NodeId × NodeUpdate)) (now : Time) :
    g (reconciledStore s peers now) = g { s with clusterSize := peers.length } := by
  unfold reconciledStore
  dsimp only
  rw [foldl_proj g (addStep peers now) _ _
        (fun t x _ => addStep_g g hg peers now t x),
      foldl_proj g removeStep _ _
        (fun t x _ => removeStep_g g hg t x)]

theorem updateCluster_g {β : Type} (g : Store → β)
    (hg : ∀ (s : Store) (nm : NodeInfoMap) (fd : List (String × NodeIdMap)),
      g { s with nodeMap := nm, failureDomainsMap := fd } = g s)
    (s : Store) (peers : List (NodeId × NodeUpdate)) (now : Time) :
    g ((updateCluster s peers now).1) = g { s with clusterSize := peers.length } := by
  have hg1 : ∀ (t : Store) (nm : NodeInfoMap), g { t with nodeMap := nm } = g t :=
    fun t nm => hg t nm t.failureDomainsMap
  unfold updateCluster
  dsimp only
  rw [foldl_proj (fun acc => g acc.1) (updateClusterStep peers) _ _
        (fun t x _ => ucStep_g g hg peers t x)]
  exact reconciledStore_g g hg1 s peers now

/-! ## Reconciler: node-map characterization after removals and additions -/

theorem keysA_append {κ ν : Type} (l1 l2 : List (κ × ν)) :
    keysA (l1 ++ l2) = keysA l1 ++ keysA l2 :=
  List.map_append _ _ _

theorem mem_filter_not_memA {κ ν : Type} [DecidableEq κ] {l : List κ}
    {m : List (κ × ν)} {id : κ} :
    (id ∈ l.filter (fun i => ¬ memA i m)) ↔ (id ∈ l ∧ memA id m = false) := by
  simp [List.mem_filter]

theorem lookupA_eq_none_of_memA_false {κ ν : Type} [DecidableEq κ] {k : κ}
    {l : List (κ × ν)} (h : memA k l = false) : lookupA k l = none := by
  cases hl : lookupA k l with
  | none => rfl
  | some v => rw [memA, hl] at h; simp at h

theorem memA_eq_true_of_lookupA {κ ν : Type} [DecidableEq κ] {k : κ} {v : ν}
    {l : List (κ × ν)} (h : lookupA k l = some v) : memA k l = true := by
  rw [memA, h]; rfl

theorem reconciledStore_lookup_not_peer (s : Store) (peers : List (NodeId × NodeUpdate))
    (now : Time) {id : NodeId} (h : memA id peers = false) :
    lookupA id (reconciledStore s peers now).nodeMap = none := by
  unfold reconciledStore
  dsimp only
  have hadd : ¬ id ∈ (keysA peers).filter (fun i => ¬ memA i s.nodeMap) := by
    intro hmem
    rw [mem_filter_not_memA] at hmem
    rw [(memA_iff_keys id peers).mpr hmem.1] at h
    exact absurd h (by simp)
  rw [addFold_lookup_not_mem peers now _ _ hadd, removeFold_lookup]
  by_cases hk : id ∈ (keysA s.nodeMap).filter (fun i => ¬ memA i peers)
  · rw [if_pos hk]
  · rw [if_neg hk]
    refine lookupA_eq_none (fun hks => hk ?_)
    exact mem_filter_not_memA.mpr ⟨hks, h⟩

theorem reconciledStore_lookup_old (s : Store) (peers : List (NodeId × NodeUpdate))
    (now : Time) {id : NodeId} (hp : memA id peers = true)
    (hm : memA id s.nodeMap = true) :
    lookupA id (reconciledStore s peers now).nodeMap = lookupA id s.nodeMap := by
  unfold reconciledStore
  dsimp only
  have hadd : ¬ id ∈ (keysA peers).filter (fun i => ¬ memA i s.nodeMap) := by
    intro hmem
    rw [mem_filter_not_memA] at hmem
    rw [hm] at hmem
    exact absurd hmem.2 (by simp)
  have hrem : ¬ id ∈ (keysA s.nodeMap).filter (fun i => ¬ memA i peers) := by
    intro hmem
    rw [mem_filter_not_memA] at hmem
    rw [hp] at hmem
    exact absurd hmem.2 (by simp)
  rw [addFold_lookup_not_mem peers now _ _ hadd, removeFold_lookup, if_neg hrem]

theorem reconciledStore_lookup_new (s : Store) (peers : List (NodeId × NodeUpdate))
    (now : Time) {id : NodeId} {u : NodeUpdate} (hnd : (keysA peers).Nodup)
    (hu : lookupA id peers = some u) (hm : memA id s.nodeMap = false) :
    lookupA id (reconciledStore s peers now).nodeMap =
      some (addedNode id .NODE_STATUS_DOWN u.QuorumMember u.ClusterDomain now) := by
  unfold reconciledStore
  dsimp only
  have hmem : id ∈ (keysA peers).filter (fun i => ¬ memA i s.nodeMap) :=
    mem_filter_not_memA.mpr ⟨(memA_iff_keys id peers).mp (memA_eq_true_of_lookupA hu), hm⟩
  have hs2 : lookupA id
      (((keysA s.nodeMap).filter (fun i => ¬ memA i peers)).foldl removeStep
        { s with clusterSize := peers.length }).nodeMap = none := by
    rw [removeFold_lookup]
    by_cases hk : id ∈ (keysA s.nodeMap).filter (fun i => ¬ memA i peers)
    · rw [if_pos hk]
    · rw [if_neg hk]
      exact lookupA_eq_none_of_memA_false hm
  rw [addFold_lookup_fresh peers now _ (hnd.filter _) _ hmem hs2, hu]
  rfl

theorem reconciledStore_memA (s : Store) (peers : List (NodeId × NodeUpdate))
    (now : Time) (id : NodeId) :
    memA id (reconciledStore s peers now).nodeMap = memA id peers := by
  cases hp : memA id peers with
  | false => rw [memA, reconciledStore_lookup_not_peer s peers now hp]; rfl
  | true =>
    cases hm : memA id s.nodeMap with
    | true => rw [memA, reconciledStore_lookup_old s peers now hp hm, ← memA, hm]
    | false =>
      unfold reconciledStore
      dsimp only
      exact addFold_memA peers now _ _
        (mem_filter_not_memA.mpr ⟨(memA_iff_keys id peers).mp hp, hm⟩)

theorem removeStep_nodup (st : Store) (id : NodeId)
    (h : (keysA st.nodeMap).Nodup) : (keysA (removeStep st id).nodeMap).Nodup := by
  unfold removeStep removeNodeUnlocked
  cases lookupA id st.nodeMap with
  | none => exact h
  | some ni => exact nodup_keysA_eraseA id h

theorem addStep_nodup (peers : List (NodeId × NodeUpdate)) (now : Time) (st : Store)
    (id : NodeId) (h : (keysA st.nodeMap).Nodup) :
    (keysA (addStep peers now st id).nodeMap).Nodup := by
  unfold addStep addNodeUnlocked
  dsimp only
  cases lookupA id st.nodeMap with
  | some ni => exact nodup_keysA_setA _ _ h
  | none => exact nodup_keysA_setA _ _ h

theorem reconciledStore_nodup (s : Store) (peers : List (NodeId × NodeUpdate))
    (now : Time) (h : (keysA s.nodeMap).Nodup) :
    (keysA (reconciledStore s peers now).nodeMap).Nodup := by
  unfold reconciledStore
  dsimp only
  refine foldl_inv _ _ (fun t x _ ht => addStep_nodup peers now t x ht) ?_
  exact foldl_inv _ _ (fun t x _ ht => removeStep_nodup t x ht) h

/-! ## Reconciler: the refresh loop -/

theorem ucStep_fst_nodeMap_some (peers : List (NodeId × NodeUpdate))
    (acc : Store × List (String × Nat)) (entry : NodeId × NodeInfo) {u : NodeUpdate}
    (h : lookupA entry.1 peers = some u) :
    ((updateClusterStep peers acc entry).1).nodeMap =
      setA entry.1 { entry.2 with
                     QuorumMember := u.QuorumMember
                     ClusterDomain := u.ClusterDomain
                     Addr := u.Addr } acc.1.nodeMap := by
  unfold updateClusterStep
  rw [h]

theorem ucStep_fst_none (peers : List (NodeId × NodeUpdate))
    (acc : Store × List (String × Nat)) (entry : NodeId × NodeInfo)
    (h : lookupA entry.1 peers = none) :
    (updateClusterStep peers acc entry).1 = acc.1 := by
  unfold updateClusterStep
  rw [h]

theorem ucStep_lookup_ne (peers : List (NodeId × NodeUpdate))
    (acc : Store × List (String × Nat)) (entry : NodeId × NodeInfo) {j : NodeId}
    (h : entry.1 ≠ j) :
    lookupA j ((updateClusterStep peers acc entry).1).nodeMap =
      lookupA j acc.1.nodeMap := by
  unfold updateClusterStep
  dsimp only
  cases lookupA entry.1 peers with
  | some u => exact lookupA_setA_ne _ _ (fun hj => h hj.symm)
  | none => rfl

theorem ucStep_memA_mono (peers : List (NodeId × NodeUpdate))
    (acc : Store × List (String × Nat)) (entry : NodeId × NodeInfo) {j : NodeId}
    (h : memA j acc.1.nodeMap = true) :
    memA j ((updateClusterStep peers acc entry).1).nodeMap = true := by
  unfold updateClusterStep
  dsimp only
  cases lookupA entry.1 peers with
  | some u => exact memA_setA_mono _ h
  | none => exact h

theorem refreshFold_lookup_not_mem (peers : List (NodeId × NodeUpdate)) :
    ∀ (m : NodeInfoMap) (st : Store) (q : List (String × Nat)) {j : NodeId},
      ¬ j ∈ keysA m →
      lookupA j ((m.foldl (updateClusterStep peers) (st, q)).1).nodeMap =
        lookupA j st.nodeMap
  | [], _, _, _, _ => rfl
  | e :: rest, st, q, j, h => by
    rw [keysA_cons, List.mem_cons] at h
    push_neg at h
    rw [List.foldl_cons,
        show updateClusterStep peers (st, q) e =
          ((updateClusterStep peers (st, q) e).1,
           (updateClusterStep peers (st, q) e).2) from rfl,
        refreshFold_lookup_not_mem peers rest _ _ h.2,
        ucStep_lookup_ne peers (st, q) e (fun he => h.1 he.symm)]

theorem refreshFold_memA_true (peers : List (NodeId × NodeUpdate)) (m : NodeInfoMap)
    (st : Store) (q : List (String × Nat)) {j : NodeId}
    (h : memA j st.nodeMap = true) :
    memA j ((m.foldl (updateClusterStep peers) (st, q)).1).nodeMap = true :=
  foldl_inv (Q := fun acc => memA j acc.1.nodeMap = true) m (st, q)
    (fun t x _ ht => ucStep_memA_mono peers t x ht) h

theorem refreshFold_nodeMap (peers : List (NodeId × NodeUpdate)) :
    ∀ (m pre : NodeInfoMap) (st : Store) (q : List (String × Nat)),
      st.nodeMap = pre ++ m → (keysA pre ++ keysA m).Nodup →
      ((m.foldl (updateClusterStep peers) (st, q)).1).nodeMap =
        pre ++ m.map (refreshEntry peers)
  | [], pre, st, q, hst, _ => by simpa using hst
  | e :: rest, pre, st, q, hst, hnd => by
    obtain ⟨x, nx⟩ := e
    have hxpre : ¬ x ∈ keysA pre := fun hx =>
      (List.nodup_append.mp hnd).2.2 hx
        (by rw [keysA_cons]; exact List.mem_cons_self _ _)
    have hnd2 : (keysA (pre ++ [(x, nx)]) ++ keysA rest).Nodup := by
      rw [keysA_append, show keysA [(x, nx)] = [x] from rfl, List.append_assoc,
          List.singleton_append]
      simpa [keysA_cons] using hnd
    rw [List.foldl_cons]
    cases hu : lookupA (x, nx).1 peers with
    | some u =>
      have hre : refreshEntry peers (x, nx) =
          (x, { nx with
                QuorumMember := u.QuorumMember
                ClusterDomain := u.ClusterDomain
                Addr := u.Addr }) := by
        unfold refreshEntry refreshVal
        rw [hu]
      have hnm : ((updateClusterStep peers (st, q) (x, nx)).1).nodeMap
          = (pre ++ [refreshEntry peers (x, nx)]) ++ rest := by
        rw [ucStep_fst_nodeMap_some peers (st, q) (x, nx) hu, hst,
            setA_append _ _ hxpre, setA_cons, if_pos rfl, hre,
            List.append_assoc, List.singleton_append]
      have hnd3 : (keysA (pre ++ [refreshEntry peers (x, nx)]) ++ keysA rest).Nodup := by
        rw [keysA_append, show keysA [refreshEntry peers (x, nx)] = [x] from by
              rw [hre]; rfl,
            List.append_assoc, List.singleton_append]
        simpa [keysA_cons] using hnd
      rw [show updateClusterStep peers (st, q) (x, nx) =
            ((updateClusterStep peers (st, q) (x, nx)).1,
             (updateClusterStep peers (st, q) (x, nx)).2) from rfl,
          refreshFold_nodeMap peers rest (pre ++ [refreshEntry peers (x, nx)]) _ _
            hnm hnd3,
          List.map_cons, List.append_assoc, List.singleton_append]
    | none =>
      have hre : refreshEntry peers (x, nx) = (x, nx) := by
        unfold refreshEntry refreshVal
        rw [hu]
      have h1 : (updateClusterStep peers (st, q) (x, nx)).1 = st :=
        ucStep_fst_none peers (st, q) (x, nx) hu
      have hnm : ((updateClusterStep peers (st, q) (x, nx)).1).nodeMap
          = (pre ++ [(x, nx)]) ++ rest := by
        rw [h1, hst, List.append_assoc, List.singleton_append]
      rw [show updateClusterStep peers (st, q) (x, nx) =
            ((updateClusterStep peers (st, q) (x, nx)).1,
             (updateClusterStep peers (st, q) (x, nx)).2) from rfl,
          refreshFold_nodeMap peers rest (pre ++ [(x, nx)]) _ _ hnm hnd2,
          List.map_cons, hre, List.append_assoc, List.singleton_append]

theorem updateCluster_fst_nodeMap (s : Store) (peers : List (NodeId × NodeUpdate))
    (now : Time) (hnd : (keysA s.nodeMap).Nodup) :
    ((updateCluster s peers now).1).nodeMap =
      (reconciledStore s peers now).nodeMap.map (refreshEntry peers) := by
  unfold updateCluster
  dsimp only
  exact refreshFold_nodeMap peers _ [] _ [] rfl
    (by simpa using reconciledStore_nodup s peers now hnd)

theorem updateCluster_lookup (s : Store) (peers : List (NodeId × NodeUpdate))
    (now : Time) (id : NodeId) (hnd : (keysA s.nodeMap).Nodup) :
    lookupA id ((updateCluster s peers now).1).nodeMap =
      Option.map (fun v => refreshVal peers (id, v))
        (lookupA id (reconciledStore s peers now).nodeMap) := by
  rw [updateCluster_fst_nodeMap s peers now hnd]
  exact lookupA_map _ _ _

theorem updateCluster_memA (s : Store) (peers : List (NodeId × NodeUpdate))
    (now : Time) (id : NodeId) :
    memA id ((updateCluster s peers now).1).nodeMap = memA id peers := by
  have hrs := reconciledStore_memA s peers now id
  unfold updateCluster
  dsimp only
  cases hp : memA id peers with
  | true => exact refreshFold_memA_true peers _ _ _ (by rw [hrs, hp])
  | false =>
    have hj : ¬ id ∈ keysA (reconciledStore s peers now).nodeMap := by
      intro hk
      have h1 : memA id (reconciledStore s peers now).nodeMap = true :=
        (memA_iff_keys _ _).mpr hk
      rw [hrs, hp] at h1
      exact absurd h1 (by simp)
    rw [memA, refreshFold_lookup_not_mem peers _ _ _ hj, ← memA, hrs, hp]

theorem refreshVal_some (peers : List (NodeId × NodeUpdate)) (p : NodeId × NodeInfo)
    {u : NodeUpdate} (h : lookupA p.1 peers = some u) :
    refreshVal peers p = { p.2 with
                           QuorumMember := u.QuorumMember
                           ClusterDomain := u.ClusterDomain
                           Addr := u.Addr } := by
  unfold refreshVal
  rw [h]

theorem refreshVal_none (peers : List (NodeId × NodeUpdate)) (p : NodeId × NodeInfo)
    (h : lookupA p.1 peers = none) : refreshVal peers p = p.2 := by
  unfold refreshVal
  rw [h]

/-! ## Claim theorems: the reconciler -/

/-- C3 (amended): after `updateCluster(P)` the key set of `GetLocalState()`
equals exactly the key set of P — the self id survives only if it is in P;
every id in P that was not previously in the node map is added with status
DOWN carrying the quorumMember, clusterDomain (and addr) given in P, stamped
`now`; and clusterSize becomes the number of peers. -/
theorem C3_updateCluster_reconcile (s : Store) (peers : List (NodeId × NodeUpdate))
    (now : Time) (hnd1 : (keysA s.nodeMap).Nodup) (hnd2 : (keysA peers).Nodup) :
    (∀ id, memA id (GetLocalState (updateCluster s peers now).1) = memA id peers) ∧
    (∀ id u, lookupA id peers = some u → memA id s.nodeMap = false →
      lookupA id (GetLocalState (updateCluster s peers now).1) =
        some { Id := id, GenNumber := 0, LastUpdateTs := now,
               WaitForGenUpdateTs := now, Status := .NODE_STATUS_DOWN,
               Value := some [], QuorumMember := u.QuorumMember,
               ClusterDomain := u.ClusterDomain, Addr := u.Addr }) ∧
    ((updateCluster s peers now).1).clusterSize = peers.length := by
  refine ⟨?_, ?_, ?_⟩
  · intro id
    exact updateCluster_memA s peers now id
  · intro id u hu hm
    rw [show GetLocalState (updateCluster s peers now).1 =
          ((updateCluster s peers now).1).nodeMap from rfl,
        updateCluster_lookup s peers now id hnd1,
        reconciledStore_lookup_new s peers now hnd2 hu hm,
        show Option.map (fun v => refreshVal peers (id, v))
            (some (addedNode id .NODE_STATUS_DOWN u.QuorumMember u.ClusterDomain now)) =
          some (refreshVal peers
            (id, addedNode id .NODE_STATUS_DOWN u.QuorumMember u.ClusterDomain now))
          from rfl,
        refreshVal_some peers _ hu]
    rfl
  · exact updateCluster_g Store.clusterSize (fun _ _ _ => rfl) s peers now

/-- C3 witness: reconciling the concrete two-node store against the peer map
with keys A and B keeps both, adds nothing else, gives the new node C its DOWN
status and peer attributes, and sets clusterSize 2. -/
theorem C3_updateCluster_reconcile_witness :
    memA "A" (GetLocalState
      (updateCluster storeA [("A", ⟨true, "d1", "a1"⟩), ("C", ⟨true, "d2", "a2"⟩)] 5).1)
      = true ∧
    lookupA "C" (GetLocalState
      (updateCluster storeA [("A", ⟨true, "d1", "a1"⟩), ("C", ⟨true, "d2", "a2"⟩)] 5).1)
      = some { Id := "C", GenNumber := 0, LastUpdateTs := 5, WaitForGenUpdateTs := 5,
               Status := .NODE_STATUS_DOWN, Value := some [], QuorumMember := true,
               ClusterDomain := "d2", Addr := "a2" } ∧
    ((updateCluster storeA [("A", ⟨true, "d1", "a1"⟩), ("C", ⟨true, "d2", "a2"⟩)] 5).1).clusterSize
      = 2 := by
  have h := C3_updateCluster_reconcile storeA
    [("A", ⟨true, "d1", "a1"⟩), ("C", ⟨true, "d2", "a2"⟩)] 5 (by decide) (by decide)
  refine ⟨?_, ?_, h.2.2⟩
  · rw [h.1 "A"]; decide
  · exact h.2.1 "C" ⟨true, "d2", "a2"⟩ (by decide) (by decide)

/-- C6 (amended): every mutating operation stamps `lastUpdateTs = now` on the
entries it mutates — `UpdateSelf` on the self entry, `UpdateNodeStatus` on its
target, `AddNode` on its target, `updateSelfClusterDomain` on an actual domain
change, and `updateCluster` on every newly added entry — but not the refresh
of quorumMember, clusterDomain and addr on existing entries inside
`updateCluster`, which mutates those fields without stamping. -/
theorem C6_timestamp_stamping :
    (∀ (s : Store) (k : StoreKey) (v : Val) (now : Time) (s' : Store),
      UpdateSelf s k v now = some s' →
      (lookupA s.id s'.nodeMap).map NodeInfo.LastUpdateTs = some now) ∧
    (∀ (s : Store) (id : NodeId) (st : NodeStatus) (now : Time),
      (UpdateNodeStatus s id st now).2 = false →
      (lookupA id (UpdateNodeStatus s id st now).1.nodeMap).map
        NodeInfo.LastUpdateTs = some now) ∧
    (∀ (s : Store) (id : NodeId) (st : NodeStatus) (qm : Bool) (fd : String)
      (now : Time),
      (lookupA id (AddNode s id st qm fd now).nodeMap).map
        NodeInfo.LastUpdateTs = some now) ∧
    (∀ (s : Store) (d : String) (now : Time),
      (updateSelfClusterDomain s d now).2 = true →
      (lookupA s.id (updateSelfClusterDomain s d now).1.nodeMap).map
        NodeInfo.LastUpdateTs = some now) ∧
    (∀ (s : Store) (peers : List (NodeId × NodeUpdate)) (now : Time) (id : NodeId)
      (u : NodeUpdate), (keysA s.nodeMap).Nodup → (keysA peers).Nodup →
      lookupA id peers = some u → memA id s.nodeMap = false →
      (lookupA id ((updateCluster s peers now).1).nodeMap).map
        NodeInfo.LastUpdateTs = some now) := by
  refine ⟨?_, ?_, ?_, ?_, ?_⟩
  · intro s k v now s' h
    unfold UpdateSelf at h
    dsimp only at h
    cases hv : ((lookupA s.id s.nodeMap).getD zeroNodeInfo).Value with
    | none => rw [hv] at h; exact absurd h (by simp)
    | some m =>
      rw [hv] at h
      dsimp only at h
      injection h with h2
      subst h2
      dsimp only
      rw [lookupA_setA_self]
      rfl
  · intro s id st now h
    unfold UpdateNodeStatus at h ⊢
    cases hl : lookupA id s.nodeMap with
    | none => rw [hl] at h; exact absurd h (by simp)
    | some ni =>
      dsimp only
      rw [lookupA_setA_self]
      rfl
  · intro s id st qm fd now
    unfold AddNode addNodeUnlocked
    cases hl : lookupA id s.nodeMap with
    | some ni =>
      dsimp only
      rw [lookupA_setA_self]
      rfl
    | none =>
      dsimp only
      rw [lookupA_setA_self]
      rfl
  · intro s d now h
    unfold updateSelfClusterDomain at h ⊢
    dsimp only at h ⊢
    by_cases hd : ((lookupA s.id s.nodeMap).getD zeroNodeInfo).ClusterDomain = d
    · rw [if_pos hd] at h
      exact absurd h (by simp)
    · rw [if_neg hd]
      dsimp only
      rw [lookupA_setA_self]
      rfl
  · intro s peers now id u hnd1 hnd2 hu hm
    rw [updateCluster_lookup s peers now id hnd1,
        reconciledStore_lookup_new s peers now hnd2 hu hm,
        show Option.map (fun v => refreshVal peers (id, v))
            (some (addedNode id .NODE_STATUS_DOWN u.QuorumMember u.ClusterDomain now)) =
          some (refreshVal peers
            (id, addedNode id .NODE_STATUS_DOWN u.QuorumMember u.ClusterDomain now))
          from rfl,
        refreshVal_some peers _ hu]
    rfl

/-- C6 witness: `AddNode` at time 4 stamps the new node, and `updateCluster`
at time 5 stamps the node it adds. -/
theorem C6_timestamp_stamping_witness :
    (lookupA "B" (AddNode storeA "B" .NODE_STATUS_UP true "d2" 4).nodeMap).map
      NodeInfo.LastUpdateTs = some 4 ∧
    (lookupA "C" ((updateCluster storeA
        [("A", ⟨true, "d1", "a1"⟩), ("C", ⟨true, "d2", "a2"⟩)] 5).1).nodeMap).map
      NodeInfo.LastUpdateTs = some 5 := by
  refine ⟨C6_timestamp_stamping.2.2.1 storeA "B" .NODE_STATUS_UP true "d2" 4, ?_⟩
  exact C6_timestamp_stamping.2.2.2.2 storeA
    [("A", ⟨true, "d1", "a1"⟩), ("C", ⟨true, "d2", "a2"⟩)] 5 "C" ⟨true, "d2", "a2"⟩
    (by decide) (by decide) (by decide) (by decide)

/-! ## Claim theorems: the self entry -/

theorem updateOne_memA_mono (selfId : NodeId) (m : NodeInfoMap) (p : NodeId × NodeInfo)
    {j : NodeId} (h : memA j m = true) : memA j (updateOne selfId m p) = true := by
  unfold updateOne
  by_cases hs : p.1 = selfId
  · rw [if_pos hs]; exact h
  · rw [if_neg hs]
    cases lookupA p.1 m with
    | none => exact h
    | some loc =>
      dsimp only
      by_cases hc : ¬ statusValid loc.Status = true ∨ loc.LastUpdateTs < p.2.LastUpdateTs
      · rw [if_pos hc]; exact memA_setA_mono _ h
      · rw [if_neg hc]; exact h

/-- C1 (amended): after `InitStore` the self entry is present, and it is
preserved by every operation except the two unguarded removals: `RemoveNode`
called with the self id, and `updateCluster` with a peer map lacking the self
id (the counterexample shows both delete it).  The operation also never
changes the self id. -/
theorem C1_self_entry_preserved (s : Store) (op : Op) (s' : Store)
    (happ : applyOp op s = some s') (hself : memA s.id s.nodeMap = true)
    (hkeep : keepsSelf op s) :
    s'.id = s.id ∧ memA s'.id s'.nodeMap = true := by
  cases op with
  | updateSelf k v now =>
    unfold applyOp UpdateSelf at happ
    dsimp only at happ
    cases hv : ((lookupA s.id s.nodeMap).getD zeroNodeInfo).Value with
    | none => rw [hv] at happ; exact absurd happ (by simp)
    | some m =>
      rw [hv] at happ
      dsimp only at happ
      injection happ with h2
      subst h2
      exact ⟨rfl, memA_setA_self _ _ _⟩
  | updateNodeStatus id st now =>
    unfold applyOp at happ
    injection happ with h2
    subst h2
    unfold UpdateNodeStatus
    cases hl : lookupA id s.nodeMap with
    | none => exact ⟨rfl, hself⟩
    | some ni =>
      dsimp only
      exact ⟨rfl, memA_setA_mono _ hself⟩
  | addNode id st qm fd now =>
    unfold applyOp at happ
    injection happ with h2
    subst h2
    unfold AddNode addNodeUnlocked
    cases hl : lookupA id s.nodeMap with
    | some ni =>
      dsimp only
      exact ⟨rfl, memA_setA_mono _ hself⟩
    | none =>
      dsimp only
      exact ⟨rfl, memA_setA_mono _ hself⟩
  | removeNode id =>
    unfold applyOp at happ
    injection happ with h2
    subst h2
    unfold RemoveNode removeNodeUnlocked
    cases hl : lookupA id s.nodeMap with
    | none => exact ⟨rfl, hself⟩
    | some ni =>
      dsimp only
      refine ⟨rfl, ?_⟩
      rw [memA_eraseA_ne s.nodeMap (fun he => hkeep he.symm)]
      exact hself
  | updateSelfClusterDomain d now =>
    unfold applyOp at happ
    injection happ with h2
    subst h2
    unfold UpdateSelfClusterDomain updateSelfClusterDomain
    dsimp only
    by_cases hd : ((lookupA s.id s.nodeMap).getD zeroNodeInfo).ClusterDomain = d
    · rw [if_pos hd]
      exact ⟨rfl, hself⟩
    · rw [if_neg hd]
      dsimp only
      exact ⟨rfl, memA_setA_self _ _ _⟩
  | updateCluster peers now =>
    unfold applyOp at happ
    injection happ with h2
    subst h2
    have hid : ((updateCluster s peers now).1).id = s.id :=
      updateCluster_g Store.id (fun _ _ _ => rfl) s peers now
    refine ⟨hid, ?_⟩
    rw [hid, updateCluster_memA s peers now s.id]
    exact hkeep
  | update diff =>
    unfold applyOp at happ
    injection happ with h2
    subst h2
    refine ⟨rfl, ?_⟩
    exact foldl_inv diff s.nodeMap
      (fun t x _ ht => updateOne_memA_mono s.id t x ht) hself

/-- C1 witness: on the initialized store, `AddNode` of a peer keeps the self
entry "A" present. -/
theorem C1_self_entry_preserved_witness :
    memA "A" (AddNode storeA "B" .NODE_STATUS_UP true "d2" 1).nodeMap = true := by
  have h := C1_self_entry_preserved storeA (.addNode "B" .NODE_STATUS_UP true "d2" 1)
    (AddNode storeA "B" .NODE_STATUS_UP true "d2" 1) rfl (by decide) trivial
  have h2 := h.2
  rw [h.1] at h2
  exact h2

/-! ## Failure-domain index -/

theorem lookupA_fdmScrub (fd : String) (j : NodeId) (d : String)
    (fdm : List (String × NodeIdMap)) :
    lookupA d (fdmScrub fd j fdm) =
      Option.map (fun l => if d ≠ fd ∧ memA j l then eraseA j l else l)
        (lookupA d fdm) := by
  unfold fdmScrub
  exact lookupA_map _ _ _

theorem memA_if_eraseA {i j : NodeId} (c : Prop) [Decidable c] (l : NodeIdMap)
    (hi : i ≠ j) : memA i (if c then eraseA j l else l) = memA i l := by
  by_cases hc : c
  · rw [if_pos hc, memA_eraseA_ne l hi]
  · rw [if_neg hc]

theorem updateClusterDomainsMap_inBucketOnly (fdm : List (String × NodeIdMap))
    (fd : String) (j : NodeId) :
    InBucketOnly (updateClusterDomainsMap fdm fd j) fd j := by
  unfold updateClusterDomainsMap
  dsimp only
  have hscrub : ∀ p ∈ fdmScrub fd j fdm, p.1 ≠ fd → memA j p.2 = false := by
    intro p hp hne
    obtain ⟨p0, hp0, rfl⟩ := List.mem_map.mp hp
    dsimp only at hne ⊢
    by_cases hc : p0.1 ≠ fd ∧ memA j p0.2
    · rw [if_pos hc]
      exact memA_eraseA_self j p0.2
    · rw [if_neg hc]
      cases hb : memA j p0.2 with
      | true => exact absurd ⟨hne, hb⟩ hc
      | false => rfl
  cases hl : lookupA fd (fdmScrub fd j fdm) with
  | some lst =>
    dsimp only
    by_cases hm : memA j lst
    · rw [if_pos hm]
      exact ⟨⟨lst, hl, hm⟩, hscrub⟩
    · rw [if_neg hm]
      constructor
      · exact ⟨setA j "" lst, lookupA_setA_self _ _ _, memA_setA_self _ _ _⟩
      · intro p hp hne
        rcases mem_setA hp with hp1 | hp1
        · exact hscrub p hp1 hne
        · rw [hp1] at hne
          exact absurd rfl hne
  | none =>
    constructor
    · refine ⟨[(j, "")], lookupA_setA_self _ _ _, ?_⟩
      simp [memA, lookupA_cons]
    · intro p hp hne
      rcases mem_setA hp with hp1 | hp1
      · exact hscrub p hp1 hne
      · rw [hp1] at hne
        exact absurd rfl hne

theorem updateClusterDomainsMap_lookup_back {fdm : List (String × NodeIdMap)}
    {fd : String} {j' : NodeId} {d : String} {l : NodeIdMap}
    (h : lookupA d (updateClusterDomainsMap fdm fd j') = some l)
    {i : NodeId} (hi : i ≠ j') (him : memA i l = true) :
    ∃ l0, lookupA d fdm = some l0 ∧ memA i l0 = true := by
  unfold updateClusterDomainsMap at h
  dsimp only at h
  have hback : ∀ {l1 : NodeIdMap}, lookupA d (fdmScrub fd j' fdm) = some l1 →
      memA i l1 = true →
      ∃ l0, lookupA d fdm = some l0 ∧ memA i l0 = true := by
    intro l1 h1 hm1
    rw [lookupA_fdmScrub] at h1
    cases h0 : lookupA d fdm with
    | none => rw [h0] at h1; exact absurd h1 (by simp)
    | some l0 =>
      rw [h0] at h1
      dsimp only [Option.map] at h1
      injection h1 with h2
      refine ⟨l0, rfl, ?_⟩
      rw [← h2, memA_if_eraseA _ _ hi] at hm1
      exact hm1
  cases hl : lookupA fd (fdmScrub fd j' fdm) with
  | some lst =>
    rw [hl] at h
    dsimp only at h
    by_cases hm : memA j' lst
    · rw [if_pos hm] at h
      exact hback h him
    · rw [if_neg hm] at h
      by_cases hd : fd = d
      · subst hd
        rw [lookupA_setA_self] at h
        injection h with h2
        rw [← h2, memA_setA_ne _ _ hi] at him
        exact hback hl him
      · rw [lookupA_setA_ne _ _ (fun he => hd he.symm)] at h
        exact hback h him
  | none =>
    rw [hl] at h
    dsimp only at h
    by_cases hd : fd = d
    · subst hd
      rw [lookupA_setA_self] at h
      injection h with h2
      rw [← h2] at him
      have hji : ¬ (j' = i) := fun he => hi he.symm
      rw [show memA i [(j', "")] = false from by
            simp [memA, lookupA_cons, lookupA_nil, hji]] at him
      exact absurd him (by simp)
    · rw [lookupA_setA_ne _ _ (fun he => hd he.symm)] at h
      exact hback h him

theorem updateClusterDomainsMap_disjoint {fdm : List (String × NodeIdMap)}
    (fd : String) (j' : NodeId) (h : BucketsDisjoint fdm) :
    BucketsDisjoint (updateClusterDomainsMap fdm fd j') := by
  intro d1 d2 l1 l2 hne h1 h2 id hand
  obtain ⟨hm1, hm2⟩ := hand
  by_cases hij : id = j'
  · subst hij
    have hio := updateClusterDomainsMap_inBucketOnly fdm fd id
    have hd1 : d1 = fd := by
      by_contra hc
      have hf := hio.2 (d1, l1) (lookupA_mem h1) hc
      rw [hm1] at hf
      exact absurd hf (by simp)
    have hd2 : d2 = fd := by
      by_contra hc
      have hf := hio.2 (d2, l2) (lookupA_mem h2) hc
      rw [hm2] at hf
      exact absurd hf (by simp)
    exact hne (hd1.trans hd2.symm)
  · obtain ⟨l01, h01, hm01⟩ := updateClusterDomainsMap_lookup_back h1 hij hm1
    obtain ⟨l02, h02, hm02⟩ := updateClusterDomainsMap_lookup_back h2 hij hm2
    exact h d1 d2 l01 l02 hne h01 h02 id ⟨hm01, hm02⟩

theorem ucStep_disjoint (peers : List (NodeId × NodeUpdate))
    (acc : Store × List (String × Nat)) (entry : NodeId × NodeInfo)
    (h : BucketsDisjoint acc.1.failureDomainsMap) :
    BucketsDisjoint ((updateClusterStep peers acc entry).1).failureDomainsMap := by
  unfold updateClusterStep
  dsimp only
  cases lookupA entry.1 peers with
  | some u => exact updateClusterDomainsMap_disjoint _ _ h
  | none => exact h

theorem updateCluster_disjoint (s : Store) (peers : List (NodeId × NodeUpdate))
    (now : Time) (h : BucketsDisjoint s.failureDomainsMap) :
    BucketsDisjoint ((updateCluster s peers now).1).failureDomainsMap := by
  unfold updateCluster
  dsimp only
  refine foldl_inv (Q := fun acc => BucketsDisjoint acc.1.failureDomainsMap) _ _
    (fun t x _ ht => ucStep_disjoint peers t x ht) ?_
  dsimp only
  rw [show (reconciledStore s peers now).failureDomainsMap = s.failureDomainsMap from
        reconciledStore_g Store.failureDomainsMap (fun _ _ => rfl) s peers now]
  exact h

theorem applyOp_disjoint (s : Store) (op : Op) (s' : Store)
    (happ : applyOp op s = some s') (h : BucketsDisjoint s.failureDomainsMap) :
    BucketsDisjoint s'.failureDomainsMap := by
  cases op with
  | updateSelf k v now =>
    unfold applyOp UpdateSelf at happ
    dsimp only at happ
    cases hv : ((lookupA s.id s.nodeMap).getD zeroNodeInfo).Value with
    | none => rw [hv] at happ; exact absurd happ (by simp)
    | some m =>
      rw [hv] at happ
      dsimp only at happ
      injection happ with h2
      subst h2
      exact h
  | updateNodeStatus id st now =>
    unfold applyOp at happ
    injection happ with h2
    subst h2
    unfold UpdateNodeStatus
    cases lookupA id s.nodeMap with
    | none => exact h
    | some ni => exact h
  | addNode id st qm fd now =>
    unfold applyOp at happ
    injection happ with h2
    subst h2
    unfold AddNode addNodeUnlocked
    cases lookupA id s.nodeMap with
    | some ni => exact h
    | none => exact h
  | removeNode id =>
    unfold applyOp at happ
    injection happ with h2
    subst h2
    unfold RemoveNode removeNodeUnlocked
    cases lookupA id s.nodeMap with
    | none => exact h
    | some ni => exact h
  | updateSelfClusterDomain d now =>
    unfold applyOp at happ
    injection happ with h2
    subst h2
    unfold UpdateSelfClusterDomain updateSelfClusterDomain
    dsimp only
    by_cases hd : ((lookupA s.id s.nodeMap).getD zeroNodeInfo).ClusterDomain = d
    · rw [if_pos hd]
      exact h
    · rw [if_neg hd]
      dsimp only
      exact updateClusterDomainsMap_disjoint _ _ h
  | updateCluster peers now =>
    unfold applyOp at happ
    injection happ with h2
    subst h2
    exact updateCluster_disjoint s peers now h
  | update diff =>
    unfold applyOp at happ
    injection happ with h2
    subst h2
    exact h

/-- C4 (amended): the second half of the claimed index invariant holds at
every reachable state: no node id appears in more than one failure-domain
bucket.  The first half — that every indexed id has a matching
`clusterDomain` in the node map — fails, because `AddNode`, `RemoveNode` and
`updateSelfClusterDomain` mutate the node map without maintaining the index
(see the counterexample). -/
theorem C4_buckets_pairwise_disjoint (s : Store) (h : Reachable s) :
    BucketsDisjoint s.failureDomainsMap := by
  induction h with
  | init id version clusterId selfClusterDomain now =>
    intro d1 d2 l1 l2 hne h1 h2 id2 hand
    exact Option.noConfusion h1
  | step op hr happ ih =>
    exact applyOp_disjoint _ op _ happ ih

/-- C4 witness: the pairwise-disjointness invariant instantiated at the
concrete reachable store of the counterexample. -/
theorem C4_buckets_pairwise_disjoint_witness :
    BucketsDisjoint storeC4.failureDomainsMap :=
  C4_buckets_pairwise_disjoint storeC4
    (Reachable.step (.addNode "A" .NODE_STATUS_UP true "d2" 2)
      (Reachable.step (.updateCluster [("A", ⟨true, "d1", "a1"⟩)] 1)
        (Reachable.init "A" "v1" "C" "d1" 0) rfl) rfl)

/-- C4 counterexample: a reachable store in which the index holds "A" under
"d1" while the node map records cluster domain "d2" for "A" — `AddNode` does
not re-index, so the claimed domain-match invariant is false. -/
theorem C4_counterexample :
    Reachable storeC4 ∧
    lookupA "d1" storeC4.failureDomainsMap = some [("A", "")] ∧
    (lookupA "A" storeC4.nodeMap).map NodeInfo.ClusterDomain = some "d2" ∧
    ("d2" : String) ≠ "d1" := by
  refine ⟨?_, rfl, rfl, by decide⟩
  exact Reachable.step (.addNode "A" .NODE_STATUS_UP true "d2" 2)
    (Reachable.step (.updateCluster [("A", ⟨true, "d1", "a1"⟩)] 1)
      (Reachable.init "A" "v1" "C" "d1" 0) rfl) rfl

/-! ## Idempotence of the reconciler -/

theorem ucStep_snd (peers : List (NodeId × NodeUpdate))
    (acc : Store × List (String × Nat)) (entry : NodeId × NodeInfo) :
    (updateClusterStep peers acc entry).2 = qmmStep peers acc.2 entry := by
  unfold updateClusterStep qmmStep
  dsimp only
  cases lookupA entry.1 peers with
  | some u => rfl
  | none => rfl

theorem refreshFold_snd (peers : List (NodeId × NodeUpdate)) :
    ∀ (m : NodeInfoMap) (st : Store) (q : List (String × Nat)),
      (m.foldl (updateClusterStep peers) (st, q)).2 = m.foldl (qmmStep peers) q
  | [], _, _ => rfl
  | e :: rest, st, q => by
    rw [List.foldl_cons, List.foldl_cons,
        show updateClusterStep peers (st, q) e =
          ((updateClusterStep peers (st, q) e).1,
           (updateClusterStep peers (st, q) e).2) from rfl,
        refreshFold_snd peers rest _ _, ucStep_snd peers (st, q) e]

theorem qmmStep_refreshEntry (peers : List (NodeId × NodeUpdate))
    (q : List (String × Nat)) (e : NodeId × NodeInfo) :
    qmmStep peers q (refreshEntry peers e) = qmmStep peers q e := by
  unfold qmmStep refreshEntry refreshVal
  dsimp only
  cases hu : lookupA e.1 peers with
  | some u => rfl
  | none => rfl

theorem foldl_qmmStep_map (peers : List (NodeId × NodeUpdate)) (m : NodeInfoMap)
    (q : List (String × Nat)) :
    (m.map (refreshEntry peers)).foldl (qmmStep peers) q =
      m.foldl (qmmStep peers) q := by
  rw [List.foldl_map]
  exact List.foldl_ext _ _ q (fun a b _ => qmmStep_refreshEntry peers a b)

theorem refreshVal_idem (peers : List (NodeId × NodeUpdate)) (e : NodeId × NodeInfo) :
    refreshVal peers (e.1, refreshVal peers e) = refreshVal peers e := by
  unfold refreshVal
  dsimp only
  cases hu : lookupA e.1 peers with
  | some u => rfl
  | none => rfl

theorem keysA_map_refreshEntry (peers : List (NodeId × NodeUpdate)) :
    ∀ (l : NodeInfoMap), keysA (l.map (refreshEntry peers)) = keysA l
  | [] => rfl
  | e :: rest => by
    rw [List.map_cons, keysA_cons, keysA_cons, keysA_map_refreshEntry peers rest]
    rfl

theorem updateClusterDomainsMap_eq_self {fdm : List (String × NodeIdMap)}
    {fd : String} {j : NodeId} (h : InBucketOnly fdm fd j) :
    updateClusterDomainsMap fdm fd j = fdm := by
  obtain ⟨⟨lb, hlb, hmb⟩, hothers⟩ := h
  have hscrub : fdmScrub fd j fdm = fdm := by
    unfold fdmScrub
    apply map_id_on
    intro p hp
    have hcond : ¬ (p.1 ≠ fd ∧ memA j p.2) := by
      rintro ⟨hne, hmem⟩
      rw [hothers p hp hne] at hmem
      exact absurd hmem (by simp)
    rw [if_neg hcond]
  unfold updateClusterDomainsMap
  dsimp only
  rw [hscrub, hlb]
  dsimp only
  rw [if_pos hmb]

theorem updateClusterDomainsMap_inBucketOnly_pres {fdm : List (String × NodeIdMap)}
    {d : String} {j j' : NodeId} (fd' : String) (hjj : j ≠ j')
    (h : InBucketOnly fdm d j) :
    InBucketOnly (updateClusterDomainsMap fdm fd' j') d j := by
  obtain ⟨⟨lb, hlb, hmb⟩, hothers⟩ := h
  have hscrub1 : lookupA d (fdmScrub fd' j' fdm) =
      some (if d ≠ fd' ∧ memA j' lb then eraseA j' lb else lb) := by
    rw [lookupA_fdmScrub, hlb]
    rfl
  have hmsc : memA j (if d ≠ fd' ∧ memA j' lb then eraseA j' lb else lb) = true := by
    rw [memA_if_eraseA _ _ hjj]
    exact hmb
  have hscrub2 : ∀ p ∈ fdmScrub fd' j' fdm, p.1 ≠ d → memA j p.2 = false := by
    intro p hp hne
    obtain ⟨p0, hp0, rfl⟩ := List.mem_map.mp hp
    dsimp only at hne ⊢
    rw [memA_if_eraseA _ _ hjj]
    exact hothers p0 hp0 hne
  unfold updateClusterDomainsMap
  dsimp only
  cases hl : lookupA fd' (fdmScrub fd' j' fdm) with
  | some lst =>
    dsimp only
    by_cases hm : memA j' lst
    · rw [if_pos hm]
      exact ⟨⟨_, hscrub1, hmsc⟩, hscrub2⟩
    · rw [if_neg hm]
      constructor
      · by_cases hd : fd' = d
        · subst hd
          refine ⟨setA j' "" lst, lookupA_setA_self _ _ _, ?_⟩
          rw [memA_setA_ne _ _ hjj]
          obtain h2 : (if fd' ≠ fd' ∧ memA j' lb then eraseA j' lb else lb) = lst := by
            rw [hscrub1] at hl
            injection hl
          rw [← h2]
          exact hmsc
        · refine ⟨_, ?_, hmsc⟩
          rw [lookupA_setA_ne _ _ (fun he => hd he.symm)]
          exact hscrub1
      · intro p hp hne
        rcases mem_setA hp with hp1 | hp1
        · exact hscrub2 p hp1 hne
        · rw [hp1]
          dsimp only
          rw [memA_setA_ne _ _ hjj]
          refine hscrub2 (fd', lst) (lookupA_mem hl) ?_
          rw [hp1] at hne
          exact hne
  | none =>
    dsimp only
    constructor
    · by_cases hd : fd' = d
      · subst hd
        rw [hscrub1] at hl
        exact absurd hl (by simp)
      · refine ⟨_, ?_, hmsc⟩
        rw [lookupA_setA_ne _ _ (fun he => hd he.symm)]
        exact hscrub1
    · intro p hp hne
      rcases mem_setA hp with hp1 | hp1
      · exact hscrub2 p hp1 hne
      · rw [hp1]
        dsimp only
        have hji : ¬ (j' = j) := fun he => hjj he.symm
        simp [memA, lookupA_cons, lookupA_nil, hji]

theorem ucStep_inBucketOnly_pres (peers : List (NodeId × NodeUpdate))
    (acc : Store × List (String × Nat)) (entry : NodeId × NodeInfo)
    {d : String} {j : NodeId} (hj : j ≠ entry.1)
    (h : InBucketOnly acc.1.failureDomainsMap d j) :
    InBucketOnly ((updateClusterStep peers acc entry).1).failureDomainsMap d j := by
  unfold updateClusterStep
  dsimp only
  cases lookupA entry.1 peers with
  | none => exact h
  | some u => exact updateClusterDomainsMap_inBucketOnly_pres _ hj h

theorem refreshFold_inBucketOnly_pres (peers : List (NodeId × NodeUpdate))
    (m : NodeInfoMap) (st : Store) (q : List (String × Nat)) {d : String}
    {j : NodeId} (hj : ¬ j ∈ keysA m) (h : InBucketOnly st.failureDomainsMap d j) :
    InBucketOnly ((m.foldl (updateClusterStep peers) (st, q)).1).failureDomainsMap
      d j :=
  foldl_inv (Q := fun acc => InBucketOnly acc.1.failureDomainsMap d j) m (st, q)
    (fun t x hx ht => ucStep_inBucketOnly_pres peers t x
      (fun he => hj (by rw [he]; exact List.mem_map_of_mem Prod.fst hx)) ht) h

theorem refreshFold_inBucketOnly (peers : List (NodeId × NodeUpdate)) :
    ∀ (m : NodeInfoMap) (st : Store) (q : List (String × Nat)),
      (keysA m).Nodup →
      ∀ (j : NodeId) (nj : NodeInfo) (u : NodeUpdate), (j, nj) ∈ m →
        lookupA j peers = some u →
        InBucketOnly ((m.foldl (updateClusterStep peers) (st, q)).1).failureDomainsMap
          u.ClusterDomain j
  | [], _, _, _, j, _, _, hmem, _ => absurd hmem (List.not_mem_nil _)
  | e :: rest, st, q, hnd, j, nj, u, hmem, hu => by
    rw [keysA_cons, List.nodup_cons] at hnd
    rw [List.foldl_cons,
        show updateClusterStep peers (st, q) e =
          ((updateClusterStep peers (st, q) e).1,
           (updateClusterStep peers (st, q) e).2) from rfl]
    rcases List.mem_cons.mp hmem with h1 | h1
    · have he : e = (j, nj) := h1.symm
      subst he
      refine refreshFold_inBucketOnly_pres peers rest _ _ hnd.1 ?_
      have hfdm : ((updateClusterStep peers (st, q) (j, nj)).1).failureDomainsMap =
          updateClusterDomainsMap st.failureDomainsMap u.ClusterDomain j := by
        unfold updateClusterStep
        rw [show lookupA ((j, nj)).1 peers = some u from hu]
      rw [hfdm]
      exact updateClusterDomainsMap_inBucketOnly _ _ _
    · exact refreshFold_inBucketOnly peers rest _ _ hnd.2 j nj u h1 hu

theorem updateCluster_entry_facts (s : Store) (peers : List (NodeId × NodeUpdate))
    (now : Time) (hnd1 : (keysA s.nodeMap).Nodup) :
    ∀ e ∈ ((updateCluster s peers now).1).nodeMap,
      ∃ u, lookupA e.1 peers = some u ∧ refreshVal peers e = e.2 ∧
        InBucketOnly ((updateCluster s peers now).1).failureDomainsMap
          u.ClusterDomain e.1 := by
  intro e he
  rw [updateCluster_fst_nodeMap s peers now hnd1] at he
  obtain ⟨e0, he0, rfl⟩ := List.mem_map.mp he
  have hmem : memA e0.1 peers = true := by
    rw [← reconciledStore_memA s peers now e0.1]
    exact lookupA_isSome_of_mem
      (show (e0.1, e0.2) ∈ (reconciledStore s peers now).nodeMap from he0)
  obtain ⟨u, hu⟩ := Option.isSome_iff_exists.mp hmem
  refine ⟨u, hu, refreshVal_idem peers e0, ?_⟩
  unfold updateCluster
  dsimp only
  exact refreshFold_inBucketOnly peers (reconciledStore s peers now).nodeMap _ _
    (reconciledStore_nodup s peers now hnd1) e0.1 e0.2 u he0 hu

theorem refreshFold_fixpoint (peers : List (NodeId × NodeUpdate)) (s1 : Store)
    (hnd : (keysA s1.nodeMap).Nodup)
    (hfacts : ∀ e ∈ s1.nodeMap, ∃ u, lookupA e.1 peers = some u ∧
      refreshVal peers e = e.2 ∧
      InBucketOnly s1.failureDomainsMap u.ClusterDomain e.1) :
    ∀ (m : NodeInfoMap) (q : List (String × Nat)), (∀ e ∈ m, e ∈ s1.nodeMap) →
      (m.foldl (updateClusterStep peers) (s1, q)).1 = s1
  | [], _, _ => rfl
  | e :: rest, q, hsub => by
    have he : e ∈ s1.nodeMap := hsub e (List.mem_cons_self _ _)
    obtain ⟨u, hu, hrv, hio⟩ := hfacts e he
    have hni : ({ e.2 with
                  QuorumMember := u.QuorumMember
                  ClusterDomain := u.ClusterDomain
                  Addr := u.Addr } : NodeInfo) = e.2 :=
      (refreshVal_some peers e hu).symm.trans hrv
    have hlook : lookupA e.1 s1.nodeMap = some e.2 :=
      lookupA_of_mem_nodup hnd (show (e.1, e.2) ∈ s1.nodeMap from he)
    have h1 : (updateClusterStep peers (s1, q) e).1 = s1 := by
      unfold updateClusterStep
      rw [hu]
      dsimp only
      rw [hni, setA_eq_of_lookup hlook, updateClusterDomainsMap_eq_self hio]
    rw [List.foldl_cons,
        show updateClusterStep peers (s1, q) e =
          ((updateClusterStep peers (s1, q) e).1,
           (updateClusterStep peers (s1, q) e).2) from rfl,
        h1]
    exact refreshFold_fixpoint peers s1 hnd hfacts rest _
      (fun x hx => hsub x (List.mem_cons_of_mem _ hx))

/-- C9: running `updateCluster(P)` twice in succession from any store with
duplicate-free node-map and peer keys leaves the store exactly as one run
does, and the second run returns the same per-domain quorum-member map as the
first. -/
theorem C9_updateCluster_idempotent (s : Store) (peers : List (NodeId × NodeUpdate))
    (now1 now2 : Time) (hnd1 : (keysA s.nodeMap).Nodup)
    (hnd2 : (keysA peers).Nodup) :
    updateCluster ((updateCluster s peers now1).1) peers now2 =
      updateCluster s peers now1 := by
  have hmemEq : ∀ id, memA id ((updateCluster s peers now1).1).nodeMap =
      memA id peers := updateCluster_memA s peers now1
  have hcs : ((updateCluster s peers now1).1).clusterSize = peers.length :=
    updateCluster_g Store.clusterSize (fun _ _ _ => rfl) s peers now1
  have hnds1 : (keysA ((updateCluster s peers now1).1).nodeMap).Nodup := by
    rw [updateCluster_fst_nodeMap s peers now1 hnd1, keysA_map_refreshEntry]
    exact reconciledStore_nodup s peers now1 hnd1
  have hfacts := updateCluster_entry_facts s peers now1 hnd1
  have hrec : reconciledStore ((updateCluster s peers now1).1) peers now2 =
      (updateCluster s peers now1).1 := by
    unfold reconciledStore
    dsimp only
    have hrem : (keysA ((updateCluster s peers now1).1).nodeMap).filter
        (fun i => ¬ memA i peers) = [] := by
      rw [List.filter_eq_nil_iff]
      intro a ha
      simp only [decide_eq_true_eq, not_not, Decidable.not_not]
      rw [← hmemEq a]
      exact (memA_iff_keys a _).mpr ha
    have hadd : (keysA peers).filter
        (fun i => ¬ memA i ((updateCluster s peers now1).1).nodeMap) = [] := by
      rw [List.filter_eq_nil_iff]
      intro a ha
      simp only [decide_eq_true_eq, not_not, Decidable.not_not]
      rw [hmemEq a]
      exact (memA_iff_keys a _).mpr ha
    rw [hrem, hadd, List.foldl_nil, List.foldl_nil, ← hcs]
  have hq : ∀ (t : Store) (n : Time), (keysA t.nodeMap).Nodup →
      (updateCluster t peers n).2 =
        (reconciledStore t peers n).nodeMap.foldl (qmmStep peers) [] := by
    intro t n _
    exact refreshFold_snd peers _ _ _
  rw [show updateCluster s peers now1 =
        ((updateCluster s peers now1).1, (updateCluster s peers now1).2) from rfl]
  refine Prod.ext_iff.mpr ⟨?_, ?_⟩
  · show ((reconciledStore ((updateCluster s peers now1).1) peers now2).nodeMap.foldl
      (updateClusterStep peers)
      (reconciledStore ((updateCluster s peers now1).1) peers now2, [])).1 =
      (updateCluster s peers now1).1
    rw [hrec]
    exact refreshFold_fixpoint peers _ hnds1 hfacts _ [] (fun e he => he)
  · show ((reconciledStore ((updateCluster s peers now1).1) peers now2).nodeMap.foldl
      (updateClusterStep peers)
      (reconciledStore ((updateCluster s peers now1).1) peers now2, [])).2 =
      (updateCluster s peers now1).2
    rw [hrec, refreshFold_snd peers _ _ _,
        updateCluster_fst_nodeMap s peers now1 hnd1, foldl_qmmStep_map,
        hq s now1 hnd1]

/-- C9 witness: idempotence instantiated on the concrete two-node store and a
concrete two-peer map, at two different clock readings. -/
theorem C9_updateCluster_idempotent_witness :
    updateCluster ((updateCluster storeAB
        [("A", ⟨true, "d1", "a1"⟩), ("B", ⟨true, "d2", "a2"⟩)] 3).1)
      [("A", ⟨true, "d1", "a1"⟩), ("B", ⟨true, "d2", "a2"⟩)] 8 =
    updateCluster storeAB
      [("A", ⟨true, "d1", "a1"⟩), ("B", ⟨true, "d2", "a2"⟩)] 3 :=
  C9_updateCluster_idempotent storeAB
    [("A", ⟨true, "d1", "a1"⟩), ("B", ⟨true, "d2", "a2"⟩)] 3 8
    (by decide) (by decide)

end GossipStore
